import Mathlib

/-!
# The cluster transport of `cluster/cluster.go`

A shallow embedding of the Go package `cluster`: the configuration data,
`New`, the dispatcher `CheckOutput` with `findPid`, and the receive loop
`Listen`.

Conventions of the embedding.

* Go `int` and `int64` are `Int`; no arithmetic of the package can overflow on
  the values it handles (`Total - 1` is the only subtraction, and a wrapped
  result would be a slice length no machine can allocate).
* A panic is a value of `Panic`; a function that may panic before it yields a
  value returns `Except Panic _`.
* A ZeroMQ socket is a record of the endpoints it was connected to.  The
  results of the calls into ZeroMQ that the package checks (`NewSocket`,
  `Connect`, `Send`, `Recv`) are inputs of the model.
* `encoding/json` is an input too: a record `Json` of the two functions the
  package calls.
* A goroutine is modelled by the sequence of its visible effects (its trace)
  on the sequence of values it is fed.
-/

namespace Cluster

/-! ## Data model -/

/-- The constant `BROADCAST`. -/
def BROADCAST : Int := -1

/-- The constant `MAX`. -/
def MAX : Int := 10

/-- The values of the field `Msg interface{}` that the model covers: the nil
interface, a string, a nil `[]byte` and a non-nil `[]byte`. -/
inductive Payload
  | nil
  | str (s : List Char)
  | nilBytes
  | bytes (b : List (Fin 256))
  deriving DecidableEq, Repr

/-- The struct `Envelope`. -/
structure Envelope where
  SendTo : Int
  SendBy : Int
  MsgId : Int
  Msg : Payload
  deriving DecidableEq, Repr

/-- The value of `new(Envelope)`: every field is zero. -/
def Envelope.zero : Envelope :=
  { SendTo := 0, SendBy := 0, MsgId := 0, Msg := Payload.nil }

/-- A channel value `chan *Envelope`: nil, or the channel made by the n-th
`make` of `New`. -/
inductive Chan
  | nil
  | made (id : Nat)
  deriving DecidableEq, Repr

/-- A `*zmq.Socket` that is not nil: the endpoints it was connected to. -/
structure Socket where
  endpoints : List String
  deriving DecidableEq, Repr

/-- The struct `ServerConfig`; an entry of `Sockets` is a pointer, `none` is
the nil pointer. -/
structure ServerConfig where
  Mypid : Int
  Url : String
  Input : Chan
  Output : Chan
  Mypeers : List Int
  Sockets : List (Option Socket)
  N_msgRcvd : Int
  N_msgSent : Int
  deriving DecidableEq, Repr

/-- The struct `ObjectType`. -/
structure ObjectType where
  Total : Int
  Servers : List ServerConfig
  deriving DecidableEq, Repr

/-- The struct `jsonobject`. -/
structure jsonobject where
  Object : ObjectType
  deriving DecidableEq, Repr

/-- The method `Pid`. -/
def ServerConfig.Pid (sc : ServerConfig) : Int := sc.Mypid

/-- The method `Peers`. -/
def ServerConfig.Peers (sc : ServerConfig) : List Int := sc.Mypeers

/-- The method `Inbox`. -/
def ServerConfig.Inbox (sc : ServerConfig) : Chan := sc.Input

/-- The method `Outbox`. -/
def ServerConfig.Outbox (sc : ServerConfig) : Chan := sc.Output

/-- The method `MsgRcvd`. -/
def ServerConfig.MsgRcvd (sc : ServerConfig) : Int := sc.N_msgRcvd

/-- The method `MsgSent`. -/
def ServerConfig.MsgSent (sc : ServerConfig) : Int := sc.N_msgSent

/-- The panics of the package: the explicit `panic(...)` calls, one
constructor for each call site, and the run-time panics of Go. -/
inductive Panic
  | couldNotReadFile
  | wrongFormat
  | makeslice
  | indexOutOfRange (i : Int) (len : Nat)
  | nilPointer
  | unableToOpenSocket (peer : Int)
  | unableToConnect (peer : Int)
  | couldNotSend (mypid peer : Int)
  | couldNotSend1 (mypid peer : Int)
  | unableToOpenListen
  deriving DecidableEq, Repr

/-- What reading and decoding the configuration file gave. -/
inductive ConfFile
  | unreadable
  | malformed
  | parsed (j : jsonobject)
  deriving DecidableEq, Repr

/-- The results of the ZeroMQ calls whose error the package checks while it
builds and runs the outbound side: whether the k-th `NewSocket` fails,
whether `Connect` of the k-th socket to an endpoint fails, and whether the
transport call that the dispatcher makes after n earlier ones fails. -/
structure Transport where
  newSocketErr : Nat → Bool
  connectErr : Nat → String → Bool
  sendErr : Nat → Bool

/-- A transport on which no call fails. -/
def Transport.healthy : Transport :=
  { newSocketErr := fun _ => false, connectErr := fun _ _ => false, sendErr := fun _ => false }

/-- The two functions of `encoding/json` that the package calls, each with the
flag "the returned error is not nil". `Marshal` gives the bytes as a string;
`Unmarshal frame e` gives what the target holds after decoding `frame` into a
target that held `e`. -/
structure Json where
  Marshal : Envelope → String × Bool
  Unmarshal : String → Envelope → Envelope × Bool

/-! ## `New` -/

/-- The call `make([]T, n)`: the length of the new slice, or the panic of a
negative length. -/
def makeslice (n : Int) : Except Panic Nat :=
  if n < 0 then Except.error Panic.makeslice else Except.ok n.toNat

/-- The variables that the loop of `New` updates: the global `mapping`, the
value `sc` and the index `k`. -/
structure NewState where
  mapping : Int → String
  sc : ServerConfig
  k : Nat

/-- One pass through the body of the loop of `New`, for the index `i`. -/
def newIter (T : Transport) (pid : Int) (servers : List ServerConfig) (i : Nat)
    (st : NewState) : Except Panic NewState :=
  match servers[i]? with
  | none => Except.error (Panic.indexOutOfRange i servers.length)
  | some entry =>
    let mapping : Int → String := fun p => if p = entry.Mypid then entry.Url else st.mapping p
    if entry.Mypid ≠ pid then
      if st.sc.Mypeers.length ≤ st.k then
        Except.error (Panic.indexOutOfRange st.k st.sc.Mypeers.length)
      else
        let peers := st.sc.Mypeers.set st.k entry.Mypid
        if st.sc.Sockets.length ≤ st.k then
          Except.error (Panic.indexOutOfRange st.k st.sc.Sockets.length)
        else if T.newSocketErr st.k then
          Except.error (Panic.unableToOpenSocket entry.Mypid)
        else if T.connectErr st.k ("tcp://" ++ mapping entry.Mypid) then
          Except.error (Panic.unableToConnect entry.Mypid)
        else
          Except.ok
            { mapping := mapping
              sc := { st.sc with
                Mypeers := peers
                Sockets := st.sc.Sockets.set st.k (some ⟨["tcp://" ++ mapping entry.Mypid]⟩) }
              k := st.k + 1 }
    else
      Except.ok { st with mapping := mapping }

/-- The loop `for i := 0; i < Total; i++` of `New`, with `n` passes left. -/
def newLoop (T : Transport) (pid : Int) (servers : List ServerConfig) :
    Nat → Nat → NewState → Except Panic NewState
  | 0, _, st => Except.ok st
  | n + 1, i, st =>
    match newIter T pid servers i st with
    | Except.error p => Except.error p
    | Except.ok st1 => newLoop T pid servers n (i + 1) st1

/-- The function `New`: the `Server` it returns, or the panic that aborts it.
The two goroutines it starts receive a copy of the returned value. -/
def New (T : Transport) (pid : Int) (conf : ConfFile) : Except Panic ServerConfig :=
  match conf with
  | ConfFile.unreadable => Except.error Panic.couldNotReadFile
  | ConfFile.malformed => Except.error Panic.wrongFormat
  | ConfFile.parsed jsontype =>
    let mapping : Int → String := fun _ => ""
    match makeslice (jsontype.Object.Total - 1), makeslice (jsontype.Object.Total - 1) with
    | Except.error p, _ => Except.error p
    | Except.ok _, Except.error p => Except.error p
    | Except.ok n, Except.ok m =>
      let sc : ServerConfig :=
        { Mypid := pid
          Url := mapping pid
          Input := Chan.made 0
          Output := Chan.made 1
          Mypeers := List.replicate n 0
          Sockets := List.replicate m none
          N_msgRcvd := 0
          N_msgSent := 0 }
      match newLoop T pid jsontype.Object.Servers jsontype.Object.Total.toNat 0
          { mapping := mapping, sc := sc, k := 0 } with
      | Except.error p => Except.error p
      | Except.ok st => Except.ok { st.sc with Url := st.mapping pid }

/-! ## The dispatcher -/

/-- The function `findPid` from the index `i` on: `ps` is `sc.Mypeers[i:]`. -/
def findPidFrom (pid : Int) : List Int → Nat → Int
  | [], _ => -1
  | p :: ps, i => if pid = p then (i : Int) else findPidFrom pid ps (i + 1)

/-- The function `findPid`. -/
def findPid (sc : ServerConfig) (pid : Int) : Int :=
  findPidFrom pid sc.Mypeers 0

/-- A call of the dispatcher into a socket of its table. -/
inductive Event
  | send (idx : Nat) (frame : String)
  | close (idx : Nat)
  deriving DecidableEq, Repr

/-- Where a goroutine stands: inside its loop, returned, or stopped by a
panic. -/
inductive Status
  | running
  | returned
  | panicked (p : Panic)
  deriving DecidableEq, Repr

/-- A dispatcher at some moment: its own copy of the `ServerConfig`, the calls
it has made so far, oldest first, and its status. -/
structure Run where
  sc : ServerConfig
  trace : List Event
  status : Status
  deriving DecidableEq, Repr

/-- The dispatcher that `go CheckOutput(sc)` starts. -/
def Run.start (sc : ServerConfig) : Run :=
  { sc := sc, trace := [], status := Status.running }

/-- The statement `_, err := sc.Sockets[j].Send(frame, 0)` followed by
`if err != nil { panic(...) } else { sc.N_msgSent++ }`, where `onErr` is the
panic of the call site. -/
def sendOn (T : Transport) (r : Run) (j : Int) (frame : String) (onErr : Panic) : Run :=
  if j < 0 ∨ (r.sc.Sockets.length : Int) ≤ j then
    { r with status := Status.panicked (Panic.indexOutOfRange j r.sc.Sockets.length) }
  else
    match r.sc.Sockets[j.toNat]? with
    | some (some _) =>
      if T.sendErr r.trace.length then
        { r with
          trace := r.trace ++ [Event.send j.toNat frame]
          status := Status.panicked onErr }
      else
        { r with
          trace := r.trace ++ [Event.send j.toNat frame]
          sc := { r.sc with N_msgSent := r.sc.N_msgSent + 1 } }
    | _ => { r with status := Status.panicked Panic.nilPointer }

/-- The loop `for i := 0; i < len(sc.Mypeers); i++` of the broadcast branch,
with `n` passes left. -/
def broadcastLoop (T : Transport) (J : Json) (x : Envelope) : Nat → Nat → Run → Run
  | 0, _, r => r
  | n + 1, i, r =>
    let r1 := sendOn T r (i : Int) (J.Marshal x).1
      (Panic.couldNotSend r.sc.Mypid (r.sc.Mypeers.getD i 0))
    match r1.status with
    | Status.running => broadcastLoop T J x n (i + 1) r1
    | _ => r1

/-- The branch `if ok` of `CheckOutput`: what the dispatcher does with one
Envelope taken from the outbox. -/
def handle (T : Transport) (J : Json) (r : Run) (x : Envelope) : Run :=
  if x.SendTo = -1 then
    broadcastLoop T J x r.sc.Mypeers.length 0 r
  else
    sendOn T r (findPid r.sc x.SendTo) (J.Marshal x).1
      (Panic.couldNotSend1 r.sc.Mypid (r.sc.Mypeers.getD (findPid r.sc x.SendTo).toNat 0))

/-- The statement `sc.Sockets[i].Close()`; the error it returns is dropped. -/
def closeOn (r : Run) (i : Nat) : Run :=
  match r.sc.Sockets[i]? with
  | none => { r with status := Status.panicked (Panic.indexOutOfRange i r.sc.Sockets.length) }
  | some none => { r with status := Status.panicked Panic.nilPointer }
  | some (some _) => { r with trace := r.trace ++ [Event.close i] }

/-- The loop `for i := 0; i < len(sc.Mypeers); i++` of the branch for a closed
outbox, with `n` passes left. -/
def closeLoop : Nat → Nat → Run → Run
  | 0, _, r => r
  | n + 1, i, r =>
    let r1 := closeOn r i
    match r1.status with
    | Status.running => closeLoop n (i + 1) r1
    | _ => r1

/-- The branch `else` of `CheckOutput`: the outbox is closed. -/
def shutdown (r : Run) : Run :=
  let r1 := closeLoop r.sc.Mypeers.length 0 r
  match r1.status with
  | Status.running => { r1 with status := Status.returned }
  | _ => r1

/-- The function `CheckOutput` on an outbox that delivers the Envelopes `xs`
and then, when `closed` holds, is closed. A dispatcher that has taken every
Envelope of an outbox not yet closed is left `running`: it waits. An element
of `xs` is the Envelope behind a pointer that is not nil, read once when it
is taken from the channel. -/
def CheckOutput (T : Transport) (J : Json) : List Envelope → Bool → Run → Run
  | [], closed, r => if closed then shutdown r else r
  | x :: xs, closed, r =>
    let r1 := handle T J r x
    match r1.status with
    | Status.running => CheckOutput T J xs closed r1
    | _ => r1

/-! ## The listener -/

/-- What a call `listenSocket.Recv(0)` returns: a frame, or an error (the
idle timeout of two seconds). -/
inductive RecvResult
  | frame (msg : String)
  | err
  deriving DecidableEq, Repr

/-- What `Listen` finds when it starts: `zmq.NewSocket` fails, or it gives a
socket on which the calls of `Recv` return `rs`, in this order. -/
inductive ListenSocket
  | cannotOpen
  | opened (rs : List RecvResult)
  deriving DecidableEq, Repr

/-- An operation of the listener on the channel `sc.Input`. -/
inductive InboxEvent
  | push (e : Envelope)
  | close
  deriving DecidableEq, Repr

/-- A listener at some moment: its own copy of the `ServerConfig`, its
operations on the inbox so far, oldest first, and its status. -/
structure ListenRun where
  sc : ServerConfig
  inbox : List InboxEvent
  status : Status
  deriving DecidableEq, Repr

/-- The listener that `go Listen(sc)` starts. -/
def ListenRun.start (sc : ServerConfig) : ListenRun :=
  { sc := sc, inbox := [], status := Status.running }

/-- The loop of `Listen` on the receive results `rs`. A listener that has
used every result is left `running`: it waits inside `Recv`. A push is the
send on the channel `sc.Input`, taken by the consumer of the inbox. -/
def listenLoop (J : Json) : List RecvResult → ListenRun → ListenRun
  | [], r => r
  | RecvResult.err :: _, r =>
    { r with inbox := r.inbox ++ [InboxEvent.close], status := Status.returned }
  | RecvResult.frame msg :: rs, r =>
    let message := (J.Unmarshal msg Envelope.zero).1
    listenLoop J rs
      { r with
        sc := { r.sc with N_msgRcvd := r.sc.N_msgRcvd + 1 }
        inbox := r.inbox ++ [InboxEvent.push message] }

/-- The function `Listen`. The errors of `Bind` and `SetRcvtimeo` are
dropped by the source and have no effect here. -/
def Listen (J : Json) (sc : ServerConfig) : ListenSocket → ListenRun
  | ListenSocket.cannotOpen =>
    { ListenRun.start sc with status := Status.panicked Panic.unableToOpenListen }
  | ListenSocket.opened rs => listenLoop J rs (ListenRun.start sc)

/-- The entries of the configuration that the loop of `New` visits in the `n`
passes from index `i` on and that are not the entry of `pid`. -/
def visitedPeers (pid : Int) (servers : List ServerConfig) (i n : Nat) : List ServerConfig :=
  ((servers.drop i).take n).filter (fun e => decide (e.Mypid ≠ pid))

/-- The socket that `New` stores for a configuration entry. -/
def socketFor (e : ServerConfig) : Option Socket := some ⟨["tcp://" ++ e.Url]⟩

/-- An entry of `Servers` as the configuration file gives it: a pid and a
url, every other field zero. -/
def testEntry (p : Int) (u : String) : ServerConfig :=
  { Mypid := p, Url := u, Input := Chan.nil, Output := Chan.nil, Mypeers := [], Sockets := []
    N_msgRcvd := 0, N_msgSent := 0 }

/-- The configuration of five servers, pids 1 to 5, that `cluster_test.go`
runs on. -/
def testConfig : jsonobject :=
  ⟨⟨5, [testEntry 1 "127.0.0.1:100001", testEntry 2 "127.0.0.1:100002",
        testEntry 3 "127.0.0.1:100003", testEntry 4 "127.0.0.1:100004",
        testEntry 5 "127.0.0.1:100005"]⟩⟩

/-! ## `encoding/json` on the type `Envelope`

The two functions of `encoding/json` are not code of the package. The model
below follows the documented behaviour of `json.Marshal` and `json.Unmarshal`
on a value of type `Envelope` whose payload is one `Payload` covers. A Go
string is taken to be valid UTF-8, a list of characters. -/

/-- The decimal digit `d`, for `d < 10`. -/
def digitChar (d : Nat) : Char := Char.ofNat (48 + d)

/-- The decimal digits of `n`, most significant first, by recursion on a bound
`f` of their number. -/
def natCharsAux : Nat → Nat → List Char
  | 0, n => [digitChar (n % 10)]
  | f + 1, n => if n < 10 then [digitChar n] else natCharsAux f (n / 10) ++ [digitChar (n % 10)]

/-- The text of a natural number in base 10, as `strconv` writes it. -/
def natChars (n : Nat) : List Char := natCharsAux n n

/-- The text of an integer in base 10: how `Marshal` writes a field of type
`int` or `int64`. -/
def intChars (n : Int) : List Char :=
  if n < 0 then '-' :: natChars n.natAbs else natChars n.natAbs

/-- The alphabet of `base64.StdEncoding`. -/
def b64Alphabet : List Char :=
  "ABCDEFGHIJKLMNOPQRSTUVWXYZabcdefghijklmnopqrstuvwxyz0123456789+/".toList

/-- The character of the six-bit value `n`. -/
def b64Char (n : Nat) : Char := b64Alphabet.getD n 'A'

/-- The function `base64.StdEncoding.EncodeToString`: three bytes give four
characters, and a last group of one or two bytes is padded with `=`. -/
def base64 : List (Fin 256) → List Char
  | [] => []
  | [a] => [b64Char (a.val / 4), b64Char (a.val % 4 * 16), '=', '=']
  | [a, b] =>
    [b64Char (a.val / 4), b64Char (a.val % 4 * 16 + b.val / 16), b64Char (b.val % 16 * 4), '=']
  | a :: b :: c :: rest =>
    b64Char (a.val / 4) :: b64Char (a.val % 4 * 16 + b.val / 16)
      :: b64Char (b.val % 16 * 4 + c.val / 64) :: b64Char (c.val % 64) :: base64 rest

/-- The hexadecimal digit of a four-bit value, in lower case. -/
def hexChar (n : Nat) : Char := "0123456789abcdef".toList.getD n '0'

/-- How `Marshal` writes one character of a string: a character of ASCII
that is not a control character and none of the five characters
`"`, `\`, `<`, `>`, `&` is copied, and so is a character outside ASCII other
than U+2028 and U+2029; every other character is escaped. -/
def escapeChar (c : Char) : List Char :=
  if c = '"' then ['\\', '"']
  else if c = '\\' then ['\\', '\\']
  else if c = '\x08' then ['\\', 'b']
  else if c = '\x0c' then ['\\', 'f']
  else if c = '\n' then ['\\', 'n']
  else if c = '\r' then ['\\', 'r']
  else if c = '\t' then ['\\', 't']
  else if c.toNat < 32 ∨ c = '<' ∨ c = '>' ∨ c = '&' then
    ['\\', 'u', '0', '0', hexChar (c.toNat / 16), hexChar (c.toNat % 16)]
  else if c.toNat = 0x2028 then ['\\', 'u', '2', '0', '2', '8']
  else if c.toNat = 0x2029 then ['\\', 'u', '2', '0', '2', '9']
  else [c]

/-- How `Marshal` writes a string: quoted, every character through
`escapeChar`. -/
def quoteString (s : List Char) : List Char :=
  '"' :: (s.flatMap escapeChar ++ ['"'])

/-- How `Marshal` writes the field `Msg`: `null` for a nil interface and for a
nil `[]byte`, a quoted string for a string, and the quoted base64 text for a
`[]byte`. -/
def marshalPayload : Payload → List Char
  | Payload.nil => "null".toList
  | Payload.str s => quoteString s
  | Payload.nilBytes => "null".toList
  | Payload.bytes b => '"' :: (base64 b ++ ['"'])

/-- The function `json.Marshal` on an `Envelope`: an object of the four
fields, in the order of the struct, under their Go names. -/
def marshalEnvelope (e : Envelope) : List Char :=
  "\x7b\"SendTo\":".toList ++ intChars e.SendTo
    ++ ",\"SendBy\":".toList ++ intChars e.SendBy
    ++ ",\"MsgId\":".toList ++ intChars e.MsgId
    ++ ",\"Msg\":".toList ++ marshalPayload e.Msg ++ "\x7d".toList

/-- White space of JSON. -/
def isWs (c : Char) : Bool := c = ' ' || c = '\t' || c = '\r' || c = '\n'

/-- The input after its leading white space. -/
def skipWs : List Char → List Char
  | [] => []
  | c :: cs => if isWs c then skipWs cs else c :: cs

/-- A character that stands for itself inside a JSON string: not the quote,
not the backslash, not a control character. -/
def isPlain (c : Char) : Bool := c != '"' && c != '\\' && decide (32 ≤ c.toNat)

/-- The text of a JSON string made of plain characters only, read from just
after its opening quote up to its closing quote, and the input that follows.
A string with an escape is outside the model. -/
def readString : List Char → Option (List Char × List Char)
  | [] => none
  | c :: cs =>
    if c = '"' then some ([], cs)
    else if isPlain c then
      match readString cs with
      | none => none
      | some (s, rest) => some (c :: s, rest)
    else none

/-- The value of a run of decimal digits after the digits worth `acc`, and
the input that follows the run. -/
def readDigits : List Char → Nat → Nat × List Char
  | [], acc => (acc, [])
  | c :: cs, acc =>
    if c.isDigit then readDigits cs (acc * 10 + (c.toNat - 48)) else (acc, c :: cs)

/-- A JSON integer without sign: `0`, or digits that start with a digit that
is not zero. -/
def readNat : List Char → Option (Nat × List Char)
  | [] => none
  | c :: cs =>
    if c = '0' then some (0, cs)
    else if c.isDigit then some (readDigits (c :: cs) 0)
    else none

/-- A JSON integer, with its sign. -/
def readInt : List Char → Option (Int × List Char)
  | [] => none
  | c :: rest =>
    if c = '-' then
      match readNat rest with
      | none => none
      | some (n, rest1) => some (-(n : Int), rest1)
    else
      match readNat (c :: rest) with
      | none => none
      | some (n, rest1) => some ((n : Int), rest1)

/-- The values of a member that the model of `Unmarshal` reads. -/
inductive JValue
  | int (n : Int)
  | str (s : List Char)
  | null
  deriving DecidableEq, Repr

/-- A value of a member and the input that follows it. -/
def readValue : List Char → Option (JValue × List Char)
  | [] => none
  | c :: rest =>
    if c = '"' then
      match readString rest with
      | none => none
      | some (s, rest1) => some (JValue.str s, rest1)
    else if c = 'n' then
      match rest with
      | 'u' :: 'l' :: 'l' :: rest1 => some (JValue.null, rest1)
      | _ => none
    else
      match readInt (c :: rest) with
      | none => none
      | some (n, rest1) => some (JValue.int n, rest1)

/-- The range of the Go types `int` (on a 64-bit platform) and `int64`. -/
def inInt64 (n : Int) : Bool := decide (-(2 : Int) ^ 63 ≤ n) && decide (n < (2 : Int) ^ 63)

/-- The store of one member into the target, for a key that is the exact
name of a field: an integer in range into an integer field, a string into
`Msg`, and `null` (no change for an integer field, the nil interface for
`Msg`). Any other pair is outside the model. -/
def storeMember (e : Envelope) (key : List Char) (v : JValue) : Option Envelope :=
  if key = "SendTo".toList then
    match v with
    | JValue.int n => if inInt64 n then some { e with SendTo := n } else none
    | JValue.null => some e
    | JValue.str _ => none
  else if key = "SendBy".toList then
    match v with
    | JValue.int n => if inInt64 n then some { e with SendBy := n } else none
    | JValue.null => some e
    | JValue.str _ => none
  else if key = "MsgId".toList then
    match v with
    | JValue.int n => if inInt64 n then some { e with MsgId := n } else none
    | JValue.null => some e
    | JValue.str _ => none
  else if key = "Msg".toList then
    match v with
    | JValue.str s => some { e with Msg := Payload.str s }
    | JValue.null => some { e with Msg := Payload.nil }
    | JValue.int _ => none
  else none

/-- The members of an object from the first key on, `f` bounding their
number: each member is stored into the target; after a member comes a comma
and a further member, or the closing brace, after which only white space may
follow. -/
def readMembers : Nat → List Char → Envelope → Option Envelope
  | 0, _, _ => none
  | f + 1, cs, e =>
    match skipWs cs with
    | [] => none
    | q :: cs1 =>
      if q = '"' then
        match readString cs1 with
        | none => none
        | some (key, cs2) =>
          match skipWs cs2 with
          | [] => none
          | colon :: cs3 =>
            if colon = ':' then
              match readValue (skipWs cs3) with
              | none => none
              | some (v, cs4) =>
                match storeMember e key v with
                | none => none
                | some e1 =>
                  match skipWs cs4 with
                  | [] => none
                  | d :: cs5 =>
                    if d = ',' then readMembers f cs5 e1
                    else if d = '\x7d' then (if skipWs cs5 = [] then some e1 else none)
                    else none
            else none
      else none

/-- Whether a character can start a JSON value. -/
def startsValue (c : Char) : Bool :=
  c = '\x7b' || c = '[' || c = '"' || c = '-' || c.isDigit || c = 't' || c = 'f' || c = 'n'

/-- The function `json.Unmarshal` into a target that holds `e`, on the inputs
the model covers: what the target holds afterwards, and whether the error is
not nil. `none` stands for an input outside the model.

* An input of white space only, and an input whose first character after the
  white space cannot start a value, is a syntax error and leaves the target
  as it is.
* An object whose keys are exact field names and whose values are integers,
  plain strings or `null` is stored member by member, without error. -/
def unmarshalEnvelope (frame : List Char) (e : Envelope) : Option (Envelope × Bool) :=
  match skipWs frame with
  | [] => some (e, true)
  | c :: cs =>
    if !startsValue c then some (e, true)
    else if c = '\x7b' then
      match skipWs cs with
      | [] => none
      | d :: rest =>
        if d = '\x7d' then (if skipWs rest = [] then some (e, false) else none)
        else
          match readMembers frame.length cs e with
          | none => none
          | some e1 => some (e1, false)
    else none

/-- The functions of `encoding/json` as the package calls them. `Marshal` has
no error on a payload of the model. On a frame outside the model `Unmarshal`
is given the value of a failed decoding that left the target as it was; no
theorem depends on that value. -/
def goJson : Json :=
  { Marshal := fun e => (String.mk (marshalEnvelope e), false)
    Unmarshal := fun frame e => (unmarshalEnvelope frame.data e).getD (e, true) }

/-- The invariant of the connection table: it has the length of the peer
list and holds an open socket, not a nil pointer, at every index. -/
def TableOk (sc : ServerConfig) : Prop :=
  sc.Sockets.length = sc.Mypeers.length ∧ ∀ s ∈ sc.Sockets, s ≠ none

instance (sc : ServerConfig) : Decidable (TableOk sc) := by
  unfold TableOk
  infer_instance

/-- The calls `Send(frame)` on the connections `i`, `i + 1`, ..., `i + n - 1`,
in this order. -/
def sendsFrom (frame : String) (i n : Nat) : List Event :=
  (List.range n).map (fun t => Event.send (i + t) frame)

/-- A transport on which the first call of the dispatcher fails and no other
call does. -/
def failFirstSend : Transport :=
  { newSocketErr := fun _ => false, connectErr := fun _ _ => false
    sendErr := fun n => decide (n = 0) }

/-- The Server that `New` returns for pid 1 on `testConfig`. -/
def testServer : ServerConfig :=
  { Mypid := 1
    Url := "127.0.0.1:100001"
    Input := Chan.made 0
    Output := Chan.made 1
    Mypeers := [2, 3, 4, 5]
    Sockets := [some ⟨["tcp://127.0.0.1:100002"]⟩, some ⟨["tcp://127.0.0.1:100003"]⟩,
      some ⟨["tcp://127.0.0.1:100004"]⟩, some ⟨["tcp://127.0.0.1:100005"]⟩]
    N_msgRcvd := 0
    N_msgSent := 0 }

/-- The broadcast of `cluster_test.go`: `Envelope{SendTo: -1, SendBy: 1,
Msg: "hello"}`. -/
def helloAll : Envelope :=
  { SendTo := -1, SendBy := 1, MsgId := 0, Msg := Payload.str "hello".toList }

/-- The frame of `helloAll`. -/
def helloAllFrame : String :=
  "\x7b\"SendTo\":-1,\"SendBy\":1,\"MsgId\":0,\"Msg\":\"hello\"\x7d"

/-- A well-formed configuration of three servers, one of which has the pid
`-1`. -/
def minusOneConfig : jsonobject :=
  ⟨⟨3, [testEntry 1 "127.0.0.1:100001", testEntry (-1) "127.0.0.1:100002",
        testEntry 3 "127.0.0.1:100003"]⟩⟩

/-- The Server that `New` returns for pid 1 on `minusOneConfig`. -/
def minusOneServer : ServerConfig :=
  { Mypid := 1
    Url := "127.0.0.1:100001"
    Input := Chan.made 0
    Output := Chan.made 1
    Mypeers := [-1, 3]
    Sockets := [some ⟨["tcp://127.0.0.1:100002"]⟩, some ⟨["tcp://127.0.0.1:100003"]⟩]
    N_msgRcvd := 0
    N_msgSent := 0 }

/-- The unicast of `cluster_test.go` from server 1: `Envelope{SendTo: 2,
SendBy: 1, Msg: "hello"}`. -/
def helloTwo : Envelope :=
  { SendTo := 2, SendBy := 1, MsgId := 0, Msg := Payload.str "hello".toList }

/-- The frame of `helloTwo`. -/
def helloTwoFrame : String :=
  "\x7b\"SendTo\":2,\"SendBy\":1,\"MsgId\":0,\"Msg\":\"hello\"\x7d"

/-- An Envelope that server 1 addresses to itself. -/
def helloSelf : Envelope :=
  { SendTo := 1, SendBy := 1, MsgId := 0, Msg := Payload.str "hello".toList }

/-- The calls `Close()` on the connections `i`, `i + 1`, ..., `i + n - 1`, in
this order. -/
def closesFrom (i n : Nat) : List Event :=
  (List.range n).map (fun t => Event.close (i + t))

/-- Whether an event is a send. -/
def Event.isSend : Event → Bool
  | Event.send _ _ => true
  | Event.close _ => false

/-- Whether an event is the close of a connection. -/
def Event.isClose : Event → Bool
  | Event.send _ _ => false
  | Event.close _ => true

/-- What `New` leaves behind when it returns: the value it returns to the
caller, and the two goroutines `go CheckOutput(sc)` and `go Listen(sc)`,
each of which took the `ServerConfig` by value and works on its own copy. -/
structure Node where
  server : ServerConfig
  dispatcher : Run
  listener : ListenRun

/-- The node as `New` returns it, for the value `sc` it returns. -/
def Node.start (sc : ServerConfig) : Node :=
  { server := sc, dispatcher := Run.start sc, listener := ListenRun.start sc }

/-- The node after its dispatcher has received the Envelopes `xs` from the
outbox (and its closing, when `closed` holds). -/
def Node.dispatch (T : Transport) (J : Json) (n : Node) (xs : List Envelope) (closed : Bool) :
    Node :=
  { n with dispatcher := CheckOutput T J xs closed n.dispatcher }

/-- A character that `Marshal` copies into a string as it is and that
stands for itself when a JSON string is read. -/
def isCopied (c : Char) : Bool := decide (escapeChar c = [c]) && isPlain c

/-- The Envelope of `Test_Cluster_Message_Length`: a broadcast from server 1
with a payload of 1000000 zero bytes. -/
def longMessage : Envelope :=
  { SendTo := -1, SendBy := 1, MsgId := 0, Msg := Payload.bytes (List.replicate 1000000 0) }

/-! ## Theorems: `New` -/

theorem visitedPeers_zero (pid : Int) (servers : List ServerConfig) (i : Nat) :
    visitedPeers pid servers i 0 = [] := by
  simp [visitedPeers]

theorem visitedPeers_succ (pid : Int) (servers : List ServerConfig) (i n : Nat)
    (entry : ServerConfig) (h : servers[i]? = some entry) :
    visitedPeers pid servers i (n + 1) =
      if entry.Mypid ≠ pid then entry :: visitedPeers pid servers (i + 1) n
      else visitedPeers pid servers (i + 1) n := by
  obtain ⟨hi, he⟩ := List.getElem?_eq_some.mp h
  unfold visitedPeers
  rw [List.drop_eq_getElem_cons hi, List.take_succ_cons, he, List.filter_cons]
  by_cases hp : entry.Mypid = pid <;> simp [hp]

theorem newLoop_ok_shape (T : Transport) (pid : Int) (servers : List ServerConfig) :
    ∀ (n i : Nat) (st st1 : NewState) (A R : List Int) (B S : List (Option Socket)),
      st.sc.Mypeers = A ++ R → A.length = st.k →
      st.sc.Sockets = B ++ S → B.length = st.k →
      newLoop T pid servers n i st = Except.ok st1 →
      (0 < n → i + n ≤ servers.length) ∧
      (visitedPeers pid servers i n).length ≤ R.length ∧
      (visitedPeers pid servers i n).length ≤ S.length ∧
      st1.k = st.k + (visitedPeers pid servers i n).length ∧
      st1.sc = { st.sc with
        Mypeers := A ++ (visitedPeers pid servers i n).map (fun e => e.Mypid)
          ++ R.drop (visitedPeers pid servers i n).length
        Sockets := B ++ (visitedPeers pid servers i n).map socketFor
          ++ S.drop (visitedPeers pid servers i n).length } := by
  intro n
  induction n with
  | zero =>
    intro i st st1 A R B S hA hAk hB hBk h
    simp only [newLoop, Except.ok.injEq] at h
    subst h
    simp [visitedPeers_zero, ← hA, ← hB]
  | succ n ih =>
    intro i st st1 A R B S hA hAk hB hBk h
    simp only [newLoop] at h
    cases hit : newIter T pid servers i st with
    | error p => simp [hit] at h
    | ok st2 =>
      rw [hit] at h
      simp only at h
      cases hget2 : servers[i]? with
      | none => simp [newIter, hget2] at hit
      | some entry =>
        have hi : i < servers.length := (List.getElem?_eq_some.mp hget2).1
        simp only [newIter, hget2] at hit
        rw [visitedPeers_succ pid servers i n entry hget2]
        by_cases hp : entry.Mypid = pid
        · rw [if_neg (not_not.mpr hp)]
          simp only [ne_eq, hp, not_true_eq_false, ↓reduceIte, Except.ok.injEq] at hit
          subst hit
          have := ih (i + 1) _ st1 A R B S (by exact hA) (by exact hAk) (by exact hB)
            (by exact hBk) h
          refine ⟨fun _ => ?_, this.2.1, this.2.2.1, this.2.2.2.1, this.2.2.2.2⟩
          have := this.1
          omega
        · rw [if_pos hp]
          simp only [ne_eq, hp, not_false_eq_true, ↓reduceIte] at hit
          split at hit
          · simp at hit
          · rename_i hk
            split at hit
            · simp at hit
            · rename_i hk2
              split at hit
              · simp at hit
              · split at hit
                · simp at hit
                · simp only [Except.ok.injEq] at hit
                  subst hit
                  have hRlen : 0 < R.length := by
                    have : st.sc.Mypeers.length = A.length + R.length := by simp [hA]
                    omega
                  have hSlen : 0 < S.length := by
                    have : st.sc.Sockets.length = B.length + S.length := by simp [hB]
                    omega
                  obtain ⟨r, R1, rfl⟩ := List.exists_cons_of_length_pos hRlen
                  obtain ⟨s, S1, rfl⟩ := List.exists_cons_of_length_pos hSlen
                  have hsetA : st.sc.Mypeers.set st.k entry.Mypid
                      = (A ++ [entry.Mypid]) ++ R1 := by
                    rw [hA, List.set_append_right _ _ (by omega)]
                    simp [hAk]
                  have hsetB : st.sc.Sockets.set st.k (socketFor entry)
                      = (B ++ [socketFor entry]) ++ S1 := by
                    rw [hB, List.set_append_right _ _ (by omega)]
                    simp [hBk]
                  have := ih (i + 1) _ st1 (A ++ [entry.Mypid]) R1 (B ++ [socketFor entry]) S1
                    (by simpa using hsetA) (by simp [hAk]) (by simpa [socketFor] using hsetB)
                    (by simp [hBk]) h
                  obtain ⟨h1, h2, h3, h4, h5⟩ := this
                  simp only [List.length_cons, List.map_cons, List.drop_succ_cons]
                  refine ⟨fun _ => by omega, by omega, by omega, by simp at h4 ⊢; omega, ?_⟩
                  rw [h5]
                  simp

theorem newLoop_ok_of_healthy (T : Transport) (pid : Int) (servers : List ServerConfig)
    (hs : ∀ k, T.newSocketErr k = false) (hc : ∀ k ep, T.connectErr k ep = false) :
    ∀ (n i : Nat) (st : NewState), i + n ≤ servers.length →
      st.k + (visitedPeers pid servers i n).length ≤ st.sc.Mypeers.length →
      st.k + (visitedPeers pid servers i n).length ≤ st.sc.Sockets.length →
      ∃ st1, newLoop T pid servers n i st = Except.ok st1 := by
  intro n
  induction n with
  | zero => intro i st _ _ _; exact ⟨st, rfl⟩
  | succ n ih =>
    intro i st hi hP hS
    have hlt : i < servers.length := by omega
    have hget : servers[i]? = some servers[i] := List.getElem?_eq_getElem hlt
    rw [visitedPeers_succ pid servers i n _ hget] at hP hS
    by_cases hp : servers[i].Mypid = pid
    · rw [if_neg (not_not.mpr hp)] at hP hS
      have hit : newIter T pid servers i st = Except.ok
          { st with mapping := fun p => if p = servers[i].Mypid then servers[i].Url
                                        else st.mapping p } := by
        simp [newIter, hget, hp]
      simp only [newLoop, hit]
      exact ih (i + 1) _ (by omega) hP hS
    · rw [if_pos hp] at hP hS
      simp only [List.length_cons] at hP hS
      have hit : newIter T pid servers i st = Except.ok
          { mapping := fun p => if p = servers[i].Mypid then servers[i].Url else st.mapping p
            sc := { st.sc with
              Mypeers := st.sc.Mypeers.set st.k servers[i].Mypid
              Sockets := st.sc.Sockets.set st.k (socketFor servers[i]) }
            k := st.k + 1 } := by
        simp only [newIter, hget, ne_eq, hp, not_false_eq_true, ↓reduceIte, hs, hc]
        rw [if_neg (by omega), if_neg (by omega)]
        simp [socketFor]
      simp only [newLoop, hit]
      exact ih (i + 1) _ (by omega) (by simp; omega) (by simp; omega)

/-- What a returned `New` has built, for any transport. -/
theorem New_ok_inv (T : Transport) (pid : Int) (j : jsonobject) (sc : ServerConfig)
    (h : New T pid (ConfFile.parsed j) = Except.ok sc) :
    1 ≤ j.Object.Total ∧ j.Object.Total.toNat ≤ j.Object.Servers.length ∧
    (visitedPeers pid j.Object.Servers 0 j.Object.Total.toNat).length + 1 ≤ j.Object.Total.toNat ∧
    sc.Mypid = pid ∧ sc.N_msgSent = 0 ∧ sc.N_msgRcvd = 0 ∧
    sc.Mypeers = (visitedPeers pid j.Object.Servers 0 j.Object.Total.toNat).map (fun e => e.Mypid)
      ++ List.replicate (j.Object.Total.toNat - 1
          - (visitedPeers pid j.Object.Servers 0 j.Object.Total.toNat).length) 0 ∧
    sc.Sockets = (visitedPeers pid j.Object.Servers 0 j.Object.Total.toNat).map socketFor
      ++ List.replicate (j.Object.Total.toNat - 1
          - (visitedPeers pid j.Object.Servers 0 j.Object.Total.toNat).length) none := by
  unfold New at h
  simp only [makeslice] at h
  by_cases hneg : j.Object.Total - 1 < 0
  · simp [hneg] at h
  · simp only [hneg, ↓reduceIte] at h
    split at h
    · simp at h
    · rename_i st hloop
      simp only [Except.ok.injEq] at h
      have hT : 1 ≤ j.Object.Total := by omega
      have hn : (j.Object.Total - 1).toNat = j.Object.Total.toNat - 1 := by omega
      have hpos : 0 < j.Object.Total.toNat := by omega
      obtain ⟨h1, h2, h3, h4, h5⟩ := newLoop_ok_shape T pid j.Object.Servers _ 0 _ st
        [] (List.replicate (j.Object.Total - 1).toNat 0)
        [] (List.replicate (j.Object.Total - 1).toNat none) (by simp) (by simp) (by simp)
        (by simp) hloop
      simp only [List.length_replicate] at h2 h3
      have h1 := h1 hpos
      refine ⟨hT, by omega, by omega, ?_⟩
      subst h
      rw [h5]
      simp [hn, List.drop_replicate]


theorem visitedPeers_all (pid : Int) (servers : List ServerConfig) :
    visitedPeers pid servers 0 servers.length
      = servers.filter (fun e => decide (e.Mypid ≠ pid)) := by
  simp [visitedPeers]

theorem length_filter_ne_of_nodup (pid : Int) :
    ∀ servers : List ServerConfig, (servers.map (fun e => e.Mypid)).Nodup →
      pid ∈ servers.map (fun e => e.Mypid) →
      (servers.filter (fun e => decide (e.Mypid ≠ pid))).length + 1 = servers.length := by
  intro servers
  induction servers with
  | nil => intro _ h; simp at h
  | cons e l ih =>
    intro hnd hmem
    rw [List.map_cons, List.nodup_cons] at hnd
    by_cases hp : e.Mypid = pid
    · have hall : l.filter (fun e => decide (e.Mypid ≠ pid)) = l := by
        rw [List.filter_eq_self]
        intro a ha
        have : a.Mypid ≠ pid := by
          intro hap
          apply hnd.1
          rw [hp, ← hap]
          exact List.mem_map_of_mem _ ha
        simpa using this
      rw [List.filter_cons_of_neg (by simp [hp]), hall]
      simp
    · have hmem2 : pid ∈ l.map (fun e => e.Mypid) := by
        rw [List.map_cons, List.mem_cons] at hmem
        rcases hmem with h | h
        · exact absurd h.symm hp
        · exact h
      have := ih hnd.2 hmem2
      rw [List.filter_cons_of_pos (by simp [hp])]
      simp only [List.length_cons]
      omega

theorem New_ok_of_healthy (T : Transport) (pid : Int) (j : jsonobject)
    (hs : ∀ k, T.newSocketErr k = false) (hc : ∀ k ep, T.connectErr k ep = false)
    (hT : 1 ≤ j.Object.Total) (hlen : j.Object.Total.toNat ≤ j.Object.Servers.length)
    (hF : (visitedPeers pid j.Object.Servers 0 j.Object.Total.toNat).length + 1
      ≤ j.Object.Total.toNat) :
    ∃ sc, New T pid (ConfFile.parsed j) = Except.ok sc := by
  have hneg : ¬ (j.Object.Total - 1 < 0) := by omega
  have hn : (j.Object.Total - 1).toNat = j.Object.Total.toNat - 1 := by omega
  obtain ⟨st, hst⟩ := newLoop_ok_of_healthy T pid j.Object.Servers hs hc j.Object.Total.toNat 0
    { mapping := fun _ => ""
      sc := { Mypid := pid, Url := "", Input := Chan.made 0, Output := Chan.made 1
              Mypeers := List.replicate (j.Object.Total - 1).toNat 0
              Sockets := List.replicate (j.Object.Total - 1).toNat none
              N_msgRcvd := 0, N_msgSent := 0 }
      k := 0 } (by omega) (by simp; omega) (by simp; omega)
  refine ⟨{ st.sc with Url := st.mapping pid }, ?_⟩
  simp only [New, makeslice, hneg, ↓reduceIte, hst]

/-- C6. For every configuration that parses and every pid that is the `Mypid`
of no entry of `Servers`, `New` returns no Server: it panics, whatever `Total`
is and whatever the socket calls return. -/
theorem New_panics_on_unknown_pid (T : Transport) (pid : Int) (j : jsonobject)
    (h : ∀ e ∈ j.Object.Servers, e.Mypid ≠ pid) :
    ∃ p, New T pid (ConfFile.parsed j) = Except.error p := by
  cases hN : New T pid (ConfFile.parsed j) with
  | error p => exact ⟨p, rfl⟩
  | ok sc =>
    exfalso
    obtain ⟨hT, hlen, hF, -⟩ := New_ok_inv T pid j sc hN
    have hall : visitedPeers pid j.Object.Servers 0 j.Object.Total.toNat
        = j.Object.Servers.take j.Object.Total.toNat := by
      unfold visitedPeers
      rw [List.drop_zero, List.filter_eq_self]
      intro a ha
      have := h a (List.mem_of_mem_take ha)
      simpa using this
    rw [hall, List.length_take] at hF
    omega

theorem New_panics_on_unknown_pid_witness :
    (∀ e ∈ testConfig.Object.Servers, e.Mypid ≠ 7) ∧
      ∃ p, New Transport.healthy 7 (ConfFile.parsed testConfig) = Except.error p :=
  ⟨by decide, New_panics_on_unknown_pid Transport.healthy 7 testConfig (by decide)⟩

/-- C3. For every configuration whose `Total` is the number of entries of
`Servers` and whose pids are pairwise distinct, and every pid that occurs in
it: the Server that `New` returns has `Pid() = pid`, and its `Peers()` is the
list of the configured pids without `pid`, in the order of the configuration,
so it has length `Total - 1` and does not contain `pid`. `New` does return
when no socket call fails. -/
theorem New_pid_and_peers (T : Transport) (pid : Int) (j : jsonobject)
    (hTotal : j.Object.Total = j.Object.Servers.length)
    (hnodup : (j.Object.Servers.map (fun e => e.Mypid)).Nodup)
    (hmem : pid ∈ j.Object.Servers.map (fun e => e.Mypid)) :
    (∀ sc, New T pid (ConfFile.parsed j) = Except.ok sc →
      sc.Pid = pid ∧
      sc.Peers = (j.Object.Servers.map (fun e => e.Mypid)).filter (fun p => decide (p ≠ pid)) ∧
      (sc.Peers.length : Int) = j.Object.Total - 1 ∧ pid ∉ sc.Peers) ∧
    ((∀ k, T.newSocketErr k = false) → (∀ k ep, T.connectErr k ep = false) →
      ∃ sc, New T pid (ConfFile.parsed j) = Except.ok sc) := by
  have hn : j.Object.Total.toNat = j.Object.Servers.length := by omega
  have hF := length_filter_ne_of_nodup pid j.Object.Servers hnodup hmem
  have hV := visitedPeers_all pid j.Object.Servers
  constructor
  · intro sc hN
    obtain ⟨-, -, -, hpid, -, -, hpeers, -⟩ := New_ok_inv T pid j sc hN
    rw [hn, hV] at hpeers
    have hz : j.Object.Servers.length - 1
        - (j.Object.Servers.filter (fun e => decide (e.Mypid ≠ pid))).length = 0 := by omega
    rw [hz] at hpeers
    have hpeers2 : sc.Mypeers
        = (j.Object.Servers.map (fun e => e.Mypid)).filter (fun p => decide (p ≠ pid)) := by
      rw [hpeers, List.filter_map]
      simp [Function.comp_def]
    refine ⟨hpid, hpeers2, ?_, ?_⟩
    · simp only [ServerConfig.Peers]
      rw [hpeers]
      simp only [List.length_append, List.length_map, List.length_replicate]
      omega
    · simp only [ServerConfig.Peers]
      rw [hpeers2]
      simp
  · intro hs hc
    apply New_ok_of_healthy T pid j hs hc (by omega) (by omega)
    rw [hn, hV]
    omega

theorem New_pid_and_peers_witness :
    (testConfig.Object.Total = testConfig.Object.Servers.length ∧
      (testConfig.Object.Servers.map (fun e => e.Mypid)).Nodup ∧
      3 ∈ testConfig.Object.Servers.map (fun e => e.Mypid)) ∧
    ((∀ sc, New Transport.healthy 3 (ConfFile.parsed testConfig) = Except.ok sc →
      sc.Pid = 3 ∧
      sc.Peers = (testConfig.Object.Servers.map (fun e => e.Mypid)).filter
        (fun p => decide (p ≠ 3)) ∧
      (sc.Peers.length : Int) = testConfig.Object.Total - 1 ∧ (3 : Int) ∉ sc.Peers) ∧
    ((∀ k, Transport.healthy.newSocketErr k = false) →
      (∀ k ep, Transport.healthy.connectErr k ep = false) →
      ∃ sc, New Transport.healthy 3 (ConfFile.parsed testConfig) = Except.ok sc)) :=
  ⟨⟨by decide, by decide, by decide⟩,
    New_pid_and_peers Transport.healthy 3 testConfig (by decide) (by decide) (by decide)⟩

/-! ## Theorems: the dispatcher -/

theorem TableOk.getElem? {sc : ServerConfig} (h : TableOk sc) {i : Nat}
    (hi : i < sc.Mypeers.length) : ∃ s, sc.Sockets[i]? = some (some s) := by
  have hlt : i < sc.Sockets.length := by rw [h.1]; exact hi
  cases hs : sc.Sockets[i] with
  | none =>
    exact absurd hs (h.2 _ (List.getElem_mem _))
  | some s =>
    exact ⟨s, by rw [List.getElem?_eq_getElem hlt, hs]⟩

theorem sendOn_open (T : Transport) (r : Run) (i : Nat) (frame : String) (onErr : Panic)
    (s : Socket) (hs : r.sc.Sockets[i]? = some (some s)) :
    sendOn T r (i : Int) frame onErr =
      if T.sendErr r.trace.length then
        { r with trace := r.trace ++ [Event.send i frame], status := Status.panicked onErr }
      else
        { r with trace := r.trace ++ [Event.send i frame]
                 sc := { r.sc with N_msgSent := r.sc.N_msgSent + 1 } } := by
  have hlt : i < r.sc.Sockets.length := (List.getElem?_eq_some.mp hs).1
  have hno : ¬ ((i : Int) < 0 ∨ (r.sc.Sockets.length : Int) ≤ (i : Int)) := by omega
  simp only [sendOn, hno, ↓reduceIte, Int.toNat_ofNat, hs]

theorem sendsFrom_succ (frame : String) (i n : Nat) :
    sendsFrom frame i (n + 1) = Event.send i frame :: sendsFrom frame (i + 1) n := by
  simp only [sendsFrom, List.range_succ_eq_map, List.map_cons, List.map_map, Nat.add_zero]
  congr 1
  apply List.map_congr_left
  intro t _
  simp only [Function.comp_apply]
  congr 1
  omega

/-- A broadcast loop on which no send fails: one send on each connection,
in order, and the counter grows by the number of sends. -/
theorem broadcastLoop_all_sent (T : Transport) (J : Json) (x : Envelope) :
    ∀ (n i : Nat) (r : Run), r.status = Status.running →
      (∀ t, t < n → ∃ s, r.sc.Sockets[i + t]? = some (some s)) →
      (∀ t, t < n → T.sendErr (r.trace.length + t) = false) →
      broadcastLoop T J x n i r =
        { r with trace := r.trace ++ sendsFrom (J.Marshal x).1 i n
                 sc := { r.sc with N_msgSent := r.sc.N_msgSent + n } } := by
  intro n
  induction n with
  | zero =>
    intro i r _ _ _
    simp [broadcastLoop, sendsFrom]
  | succ n ih =>
    intro i r hrun hsock herr
    obtain ⟨sc, tr, st⟩ := r
    simp only at hrun hsock herr
    subst hrun
    obtain ⟨s, hs⟩ := hsock 0 (by omega)
    have he := herr 0 (by omega)
    simp only [Nat.add_zero] at hs he
    have hstep := sendOn_open T ⟨sc, tr, Status.running⟩ i (J.Marshal x).1
        (Panic.couldNotSend sc.Mypid (sc.Mypeers.getD i 0)) s hs
    simp only [he, Bool.false_eq_true, ↓reduceIte] at hstep
    have hnext := ih (i + 1)
      ⟨{ sc with N_msgSent := sc.N_msgSent + 1 }, tr ++ [Event.send i (J.Marshal x).1],
        Status.running⟩ rfl
      (fun t ht => by
        obtain ⟨s1, hs1⟩ := hsock (t + 1) (by omega)
        exact ⟨s1, by rw [← hs1]; congr 1; omega⟩)
      (fun t ht => by
        have := herr (t + 1) (by omega)
        rw [← this]
        congr 1
        simp only [List.length_append, List.length_singleton]
        omega)
    simp only [broadcastLoop, hstep, hnext]
    rw [sendsFrom_succ]
    simp only [List.append_assoc, List.singleton_append, Nat.cast_add, Nat.cast_one, Run.mk.injEq,
      ServerConfig.mk.injEq, true_and, and_true]
    omega

/-- A broadcast loop whose send number `m` is the first to fail: the sends
go on the connections up to that one, then the dispatcher panics. -/
theorem broadcastLoop_fails_at (T : Transport) (J : Json) (x : Envelope) :
    ∀ (m n i : Nat) (r : Run), m < n → r.status = Status.running →
      (∀ t, t ≤ m → ∃ s, r.sc.Sockets[i + t]? = some (some s)) →
      (∀ t, t < m → T.sendErr (r.trace.length + t) = false) →
      T.sendErr (r.trace.length + m) = true →
      broadcastLoop T J x n i r =
        { trace := r.trace ++ sendsFrom (J.Marshal x).1 i (m + 1)
          sc := { r.sc with N_msgSent := r.sc.N_msgSent + m }
          status := Status.panicked
            (Panic.couldNotSend r.sc.Mypid (r.sc.Mypeers.getD (i + m) 0)) } := by
  intro m
  induction m with
  | zero =>
    intro n i r hmn hrun hsock _ hfail
    obtain ⟨sc, tr, st⟩ := r
    simp only at hrun hsock hfail
    subst hrun
    obtain ⟨n, rfl⟩ : ∃ k, n = k + 1 := ⟨n - 1, by omega⟩
    obtain ⟨s, hs⟩ := hsock 0 (by omega)
    simp only [Nat.add_zero] at hs hfail
    have hstep := sendOn_open T ⟨sc, tr, Status.running⟩ i (J.Marshal x).1
        (Panic.couldNotSend sc.Mypid (sc.Mypeers.getD i 0)) s hs
    simp only [hfail, ↓reduceIte] at hstep
    simp only [broadcastLoop, hstep]
    simp [sendsFrom, List.range_succ]
  | succ m ih =>
    intro n i r hmn hrun hsock herr hfail
    obtain ⟨sc, tr, st⟩ := r
    simp only at hrun hsock herr hfail
    subst hrun
    obtain ⟨n, rfl⟩ : ∃ k, n = k + 1 := ⟨n - 1, by omega⟩
    obtain ⟨s, hs⟩ := hsock 0 (by omega)
    have he := herr 0 (by omega)
    simp only [Nat.add_zero] at hs he
    have hstep := sendOn_open T ⟨sc, tr, Status.running⟩ i (J.Marshal x).1
        (Panic.couldNotSend sc.Mypid (sc.Mypeers.getD i 0)) s hs
    simp only [he, Bool.false_eq_true, ↓reduceIte] at hstep
    have hnext := ih n (i + 1)
      ⟨{ sc with N_msgSent := sc.N_msgSent + 1 }, tr ++ [Event.send i (J.Marshal x).1],
        Status.running⟩ (by omega) rfl
      (fun t ht => by
        obtain ⟨s1, hs1⟩ := hsock (t + 1) (by omega)
        exact ⟨s1, by rw [← hs1]; congr 1; omega⟩)
      (fun t ht => by
        have := herr (t + 1) (by omega)
        rw [← this]
        congr 1
        simp only [List.length_append, List.length_singleton]
        omega)
      (by
        rw [← hfail]
        congr 1
        simp only [List.length_append, List.length_singleton]
        omega)
    simp only [broadcastLoop, hstep, hnext]
    rw [sendsFrom_succ (J.Marshal x).1 i (m + 1)]
    simp only [List.append_assoc, List.singleton_append, Nat.cast_add, Nat.cast_one, Run.mk.injEq,
      ServerConfig.mk.injEq, true_and, and_true, Status.panicked.injEq, Panic.couldNotSend.injEq]
    refine ⟨by omega, ?_⟩
    congr 1
    omega

/-- The tables that `New` builds from a well-formed configuration: entry by
entry the peers of `pid` in the order of the configuration, and for each the
socket connected to its url. -/
theorem New_wellformed_tables (T : Transport) (pid : Int) (j : jsonobject) (sc : ServerConfig)
    (hTotal : j.Object.Total = j.Object.Servers.length)
    (hnodup : (j.Object.Servers.map (fun e => e.Mypid)).Nodup)
    (hmem : pid ∈ j.Object.Servers.map (fun e => e.Mypid))
    (hN : New T pid (ConfFile.parsed j) = Except.ok sc) :
    sc.Mypeers = (j.Object.Servers.filter (fun e => decide (e.Mypid ≠ pid))).map
        (fun e => e.Mypid) ∧
    sc.Sockets = (j.Object.Servers.filter (fun e => decide (e.Mypid ≠ pid))).map socketFor := by
  have hn : j.Object.Total.toNat = j.Object.Servers.length := by omega
  have hF := length_filter_ne_of_nodup pid j.Object.Servers hnodup hmem
  obtain ⟨-, -, -, -, -, -, hpeers, hsockets⟩ := New_ok_inv T pid j sc hN
  rw [hn, visitedPeers_all] at hpeers hsockets
  have hz : j.Object.Servers.length - 1
      - (j.Object.Servers.filter (fun e => decide (e.Mypid ≠ pid))).length = 0 := by omega
  rw [hz] at hpeers hsockets
  simp only [List.replicate_zero, List.append_nil] at hpeers hsockets
  exact ⟨hpeers, hsockets⟩

theorem tableOk_of_map (sc : ServerConfig) (F : List ServerConfig)
    (hp : sc.Mypeers = F.map (fun e => e.Mypid)) (hs : sc.Sockets = F.map socketFor) :
    TableOk sc := by
  constructor
  · rw [hp, hs]; simp
  · intro s hsm
    rw [hs] at hsm
    obtain ⟨e, -, rfl⟩ := List.mem_map.mp hsm
    simp [socketFor]

/-- C1, as the code has it. For a dispatcher whose connection table has the
length of its peer list `P` and holds an open socket at every index, and an
Envelope with `SendTo = -1`: when no send fails, `CheckOutput` performs
exactly `len(P)` sends, one on each connection index `0, ..., len(P)-1` in
this order, each with the same serialization of the Envelope, and counts
them; when the send on index `m` is the first that fails, the sends stop
there and the dispatcher panics, so the connections after `m` get no send.
For a node that `New` built from a well-formed configuration of `N` entries
the table is such a table of `N - 1` connections, and connection `i` was
opened to the url of peer `P[i]`, which is not the pid of the node. -/
theorem broadcast_fanout (T : Transport) (J : Json) (x : Envelope) (hx : x.SendTo = -1) :
    (∀ r : Run, r.status = Status.running → TableOk r.sc →
      ((∀ t, t < r.sc.Mypeers.length → T.sendErr (r.trace.length + t) = false) →
        handle T J r x =
          { r with
            trace := r.trace ++ sendsFrom (J.Marshal x).1 0 r.sc.Mypeers.length
            sc := { r.sc with N_msgSent := r.sc.N_msgSent + r.sc.Mypeers.length } }) ∧
      (∀ m, m < r.sc.Mypeers.length →
        (∀ t, t < m → T.sendErr (r.trace.length + t) = false) →
        T.sendErr (r.trace.length + m) = true →
        handle T J r x =
          { trace := r.trace ++ sendsFrom (J.Marshal x).1 0 (m + 1)
            sc := { r.sc with N_msgSent := r.sc.N_msgSent + m }
            status := Status.panicked
              (Panic.couldNotSend r.sc.Mypid (r.sc.Mypeers.getD m 0)) })) ∧
    (∀ (pid : Int) (j : jsonobject) (sc : ServerConfig),
      j.Object.Total = j.Object.Servers.length →
      (j.Object.Servers.map (fun e => e.Mypid)).Nodup →
      pid ∈ j.Object.Servers.map (fun e => e.Mypid) →
      New T pid (ConfFile.parsed j) = Except.ok sc →
      TableOk sc ∧ sc.Mypeers.length + 1 = j.Object.Servers.length ∧
      ∀ (i : Nat) (p : Int), sc.Mypeers[i]? = some p →
        p ≠ pid ∧ ∃ e ∈ j.Object.Servers, e.Mypid = p ∧
          sc.Sockets[i]? = some (some ⟨["tcp://" ++ e.Url]⟩)) := by
  constructor
  · intro r hrun htable
    constructor
    · intro herr
      simp only [handle, hx, ↓reduceIte]
      exact broadcastLoop_all_sent T J x _ 0 r hrun
        (fun t ht => by simpa using htable.getElem? ht) herr
    · intro m hm herr hfail
      simp only [handle, hx, ↓reduceIte]
      have := broadcastLoop_fails_at T J x m _ 0 r hm hrun
        (fun t ht => by simpa using htable.getElem? (show t < r.sc.Mypeers.length by omega))
        herr hfail
      simpa using this
  · intro pid j sc hTotal hnodup hmem hN
    obtain ⟨hp, hs⟩ := New_wellformed_tables T pid j sc hTotal hnodup hmem hN
    refine ⟨tableOk_of_map sc _ hp hs, ?_, ?_⟩
    · rw [hp, List.length_map]
      exact length_filter_ne_of_nodup pid j.Object.Servers hnodup hmem
    · intro i p hi
      rw [hp, List.getElem?_map] at hi
      cases hF : (j.Object.Servers.filter (fun e => decide (e.Mypid ≠ pid)))[i]? with
      | none => rw [hF] at hi; simp at hi
      | some e =>
        rw [hF] at hi
        simp only [Option.map_some', Option.some.injEq] at hi
        have hmemF := List.getElem?_mem hF
        rw [List.mem_filter] at hmemF
        refine ⟨?_, e, hmemF.1, hi, ?_⟩
        · rw [← hi]; simpa using hmemF.2
        · rw [hs, List.getElem?_map, hF]
          rfl

/-- C1 fails as stated. The dispatcher of server 1 of the five-server
configuration has a table of four open connections for its four peers; when
the first send of a broadcast fails, the dispatcher panics after that one
send, and the connections 1, 2 and 3 get no send. -/
theorem broadcast_stops_at_failed_send :
    New failFirstSend 1 (ConfFile.parsed testConfig) = Except.ok testServer ∧
    testServer.Sockets.length = testServer.Mypeers.length ∧
    helloAll.SendTo = -1 ∧
    handle failFirstSend goJson (Run.start testServer) helloAll =
      { sc := testServer
        trace := [Event.send 0 helloAllFrame]
        status := Status.panicked (Panic.couldNotSend 1 2) } :=
  ⟨rfl, by decide, by decide, by decide⟩

theorem broadcast_fanout_witness :
    (helloAll.SendTo = -1 ∧ (Run.start testServer).status = Status.running ∧
      TableOk (Run.start testServer).sc) ∧
    handle Transport.healthy goJson (Run.start testServer) helloAll =
      { sc := { testServer with N_msgSent := 4 }
        trace := [Event.send 0 helloAllFrame, Event.send 1 helloAllFrame,
          Event.send 2 helloAllFrame, Event.send 3 helloAllFrame]
        status := Status.running } ∧
    handle failFirstSend goJson (Run.start testServer) helloAll =
      { sc := testServer
        trace := [Event.send 0 helloAllFrame]
        status := Status.panicked (Panic.couldNotSend 1 2) } ∧
    (TableOk testServer ∧ testServer.Mypeers.length + 1 = testConfig.Object.Servers.length ∧
      ∀ (i : Nat) (p : Int), testServer.Mypeers[i]? = some p →
        p ≠ 1 ∧ ∃ e ∈ testConfig.Object.Servers, e.Mypid = p ∧
          testServer.Sockets[i]? = some (some ⟨["tcp://" ++ e.Url]⟩)) :=
  ⟨⟨by decide, by decide, by decide⟩,
    ((broadcast_fanout Transport.healthy goJson helloAll (by decide)).1
      (Run.start testServer) (by decide) (by decide)).1 (fun _ _ => rfl),
    ((broadcast_fanout failFirstSend goJson helloAll (by decide)).1
      (Run.start testServer) (by decide) (by decide)).2 0 (by decide)
      (fun t ht => absurd ht (Nat.not_lt_zero t)) (by decide),
    (broadcast_fanout Transport.healthy goJson helloAll (by decide)).2 1 testConfig testServer
      (by decide) (by decide) (by decide) rfl⟩

theorem findPidFrom_not_mem (pid : Int) :
    ∀ (ps : List Int) (i : Nat), pid ∉ ps → findPidFrom pid ps i = -1 := by
  intro ps
  induction ps with
  | nil => intro i _; rfl
  | cons p ps ih =>
    intro i h
    rw [List.mem_cons, not_or] at h
    simp only [findPidFrom, h.1, ↓reduceIte]
    exact ih (i + 1) h.2

theorem findPidFrom_mem (pid : Int) :
    ∀ (ps : List Int) (i : Nat), pid ∈ ps →
      ∃ t, t < ps.length ∧ ps[t]? = some pid ∧ findPidFrom pid ps i = ((i + t : Nat) : Int) := by
  intro ps
  induction ps with
  | nil => intro i h; simp at h
  | cons p ps ih =>
    intro i h
    by_cases hp : pid = p
    · exact ⟨0, by simp, by simp [hp], by simp [findPidFrom, hp]⟩
    · rw [List.mem_cons] at h
      rcases h with h | h
      · exact absurd h hp
      · obtain ⟨t, ht, hget, hfind⟩ := ih (i + 1) h
        refine ⟨t + 1, by simp; omega, by simpa using hget, ?_⟩
        simp only [findPidFrom, hp, ↓reduceIte, hfind]
        congr 1
        omega

/-- C4, what the code does. For every dispatcher and every Envelope whose
`SendTo` is neither -1 nor in the peer list, `findPid` returns -1 and
`CheckOutput` indexes the connection table with it: the dispatcher panics
with an index out of range. It has made no send, and it handles none of the
Envelopes that follow. -/
theorem CheckOutput_unknown_destination_panics (T : Transport) (J : Json) (r : Run)
    (x : Envelope) (xs : List Envelope) (closed : Bool)
    (hb : x.SendTo ≠ -1) (hp : x.SendTo ∉ r.sc.Mypeers) :
    findPid r.sc x.SendTo = -1 ∧
    CheckOutput T J (x :: xs) closed r =
      { r with status := Status.panicked (Panic.indexOutOfRange (-1) r.sc.Sockets.length) } := by
  have hf : findPid r.sc x.SendTo = -1 := findPidFrom_not_mem _ _ 0 hp
  refine ⟨hf, ?_⟩
  have hh : handle T J r x =
      { r with status := Status.panicked (Panic.indexOutOfRange (-1) r.sc.Sockets.length) } := by
    simp only [handle, hb, ↓reduceIte, hf, sendOn]
    simp
  simp only [CheckOutput, hh]

theorem CheckOutput_unknown_destination_panics_witness :
    (helloSelf.SendTo ≠ -1 ∧ helloSelf.SendTo ∉ (Run.start testServer).sc.Mypeers) ∧
    findPid (Run.start testServer).sc helloSelf.SendTo = -1 ∧
    CheckOutput Transport.healthy goJson [helloSelf, helloTwo] false (Run.start testServer) =
      { Run.start testServer with
        status := Status.panicked (Panic.indexOutOfRange (-1) 4) } :=
  ⟨⟨by decide, by decide⟩,
    CheckOutput_unknown_destination_panics Transport.healthy goJson (Run.start testServer)
      helloSelf [helloTwo] false (by decide) (by decide)⟩

theorem CheckOutput_single (T : Transport) (J : Json) (r : Run) (x : Envelope) :
    CheckOutput T J [x] false r = handle T J r x := by
  simp only [CheckOutput]
  split <;> simp

/-- C2, as the code has it. For a node that `New` built from a well-formed
configuration and an Envelope whose `SendTo` is a pid in `Peers()` other than
-1, `CheckOutput` performs exactly one send, whatever it has handled before:
on the connection at the one index `i` with `Peers()[i] = SendTo`, which
`New` opened to the url that the configuration gives for that pid. -/
theorem unicast_one_send (T : Transport) (J : Json) (pid : Int) (j : jsonobject)
    (sc : ServerConfig) (x : Envelope)
    (hTotal : j.Object.Total = j.Object.Servers.length)
    (hnodup : (j.Object.Servers.map (fun e => e.Mypid)).Nodup)
    (hmem : pid ∈ j.Object.Servers.map (fun e => e.Mypid))
    (hN : New T pid (ConfFile.parsed j) = Except.ok sc)
    (hx : x.SendTo ∈ sc.Peers) (hb : x.SendTo ≠ -1) :
    ∃ (i : Nat) (e : ServerConfig),
      sc.Peers[i]? = some x.SendTo ∧ (∀ k, sc.Peers[k]? = some x.SendTo → k = i) ∧
      e ∈ j.Object.Servers ∧ e.Mypid = x.SendTo ∧
      sc.Sockets[i]? = some (some ⟨["tcp://" ++ e.Url]⟩) ∧
      ∀ r : Run, r.sc.Mypeers = sc.Mypeers → r.sc.Sockets = sc.Sockets →
        (CheckOutput T J [x] false r).trace = r.trace ++ [Event.send i (J.Marshal x).1] := by
  obtain ⟨hp, hs⟩ := New_wellformed_tables T pid j sc hTotal hnodup hmem hN
  obtain ⟨i, hi, hget, hfind⟩ := findPidFrom_mem x.SendTo sc.Mypeers 0 hx
  have hnd : sc.Mypeers.Nodup := by
    have h1 : sc.Mypeers = (j.Object.Servers.map (fun e => e.Mypid)).filter
        (fun q => decide (q ≠ pid)) := by
      rw [hp, List.filter_map]
      rfl
    rw [h1]
    exact hnodup.filter _
  have hget2 := hget
  rw [hp, List.getElem?_map] at hget2
  cases hF : (j.Object.Servers.filter (fun e => decide (e.Mypid ≠ pid)))[i]? with
  | none => rw [hF] at hget2; simp at hget2
  | some e =>
    rw [hF] at hget2
    simp only [Option.map_some', Option.some.injEq] at hget2
    have hsock : sc.Sockets[i]? = some (some ⟨["tcp://" ++ e.Url]⟩) := by
      rw [hs, List.getElem?_map, hF]
      rfl
    refine ⟨i, e, hget, ?_, (List.mem_filter.mp (List.getElem?_mem hF)).1, hget2, hsock, ?_⟩
    · intro k hk
      obtain ⟨hk1, hk2⟩ := List.getElem?_eq_some.mp hk
      obtain ⟨hi1, hi2⟩ := List.getElem?_eq_some.mp hget
      exact (hnd.getElem_inj_iff).mp (hk2.trans hi2.symm)
    · intro r hrp hrs
      rw [CheckOutput_single]
      have hfp : findPid r.sc x.SendTo = (i : Int) := by
        simp only [findPid, hrp, hfind, Nat.zero_add]
      simp only [handle, hb, ↓reduceIte, hfp]
      rw [sendOn_open T r i _ _ _ (by rw [hrs]; exact hsock)]
      split <;> rfl

/-- C2 fails as stated. The configuration with the pids 1, -1 and 3 is
well-formed, the peers of server 1 are -1 and 3, and an Envelope with
`SendTo = -1`, a pid in `Peers()`, is taken for a broadcast: `CheckOutput`
sends it on both connections. -/
theorem unicast_to_pid_minus_one_is_broadcast :
    (minusOneConfig.Object.Total = minusOneConfig.Object.Servers.length ∧
      (minusOneConfig.Object.Servers.map (fun e => e.Mypid)).Nodup ∧
      (1 : Int) ∈ minusOneConfig.Object.Servers.map (fun e => e.Mypid)) ∧
    New Transport.healthy 1 (ConfFile.parsed minusOneConfig) = Except.ok minusOneServer ∧
    helloAll.SendTo ∈ minusOneServer.Peers ∧
    (CheckOutput Transport.healthy goJson [helloAll] false (Run.start minusOneServer)).trace =
      [Event.send 0 helloAllFrame, Event.send 1 helloAllFrame] :=
  ⟨⟨by decide, by decide, by decide⟩, rfl, by decide, by decide⟩

theorem unicast_one_send_witness :
    (testConfig.Object.Total = testConfig.Object.Servers.length ∧
      (testConfig.Object.Servers.map (fun e => e.Mypid)).Nodup ∧
      (1 : Int) ∈ testConfig.Object.Servers.map (fun e => e.Mypid) ∧
      New Transport.healthy 1 (ConfFile.parsed testConfig) = Except.ok testServer ∧
      helloTwo.SendTo ∈ testServer.Peers ∧ helloTwo.SendTo ≠ -1) ∧
    ∃ (i : Nat) (e : ServerConfig),
      testServer.Peers[i]? = some helloTwo.SendTo ∧
      (∀ k, testServer.Peers[k]? = some helloTwo.SendTo → k = i) ∧
      e ∈ testConfig.Object.Servers ∧ e.Mypid = helloTwo.SendTo ∧
      testServer.Sockets[i]? = some (some ⟨["tcp://" ++ e.Url]⟩) ∧
      ∀ r : Run, r.sc.Mypeers = testServer.Mypeers → r.sc.Sockets = testServer.Sockets →
        (CheckOutput Transport.healthy goJson [helloTwo] false r).trace =
          r.trace ++ [Event.send i (goJson.Marshal helloTwo).1] :=
  ⟨⟨by decide, by decide, by decide, rfl, by decide, by decide⟩,
    unicast_one_send Transport.healthy goJson 1 testConfig testServer helloTwo
      (by decide) (by decide) (by decide) rfl (by decide) (by decide)⟩

/-- C7, what the code does. `CheckOutput` takes the `ServerConfig` by value,
so `sc.N_msgSent++` counts on the copy of the dispatcher: whatever the
dispatcher of a node has sent, `MsgSent()` of the Server that `New` returned
is 0. -/
theorem MsgSent_stays_zero (T : Transport) (J : Json) (pid : Int) (conf : ConfFile)
    (sc : ServerConfig) (xs : List Envelope) (closed : Bool)
    (hN : New T pid conf = Except.ok sc) :
    ((Node.start sc).dispatch T J xs closed).server.MsgSent = 0 := by
  cases conf with
  | unreadable => simp [New] at hN
  | malformed => simp [New] at hN
  | parsed j =>
    obtain ⟨-, -, -, -, h0, -⟩ := New_ok_inv T pid j sc hN
    exact h0

/-- The failing input of C7: server 1 of the five-server configuration sends
one unicast Envelope to server 2. The dispatcher has sent it and counted it
on its own copy, and `MsgSent()` of the returned Server is still 0. -/
theorem MsgSent_stays_zero_witness :
    New Transport.healthy 1 (ConfFile.parsed testConfig) = Except.ok testServer ∧
    ((Node.start testServer).dispatch Transport.healthy goJson [helloTwo] false).dispatcher =
      { sc := { testServer with N_msgSent := 1 }
        trace := [Event.send 0 helloTwoFrame]
        status := Status.running } ∧
    ((Node.start testServer).dispatch Transport.healthy goJson [helloTwo] false).server.MsgSent
      = 0 :=
  ⟨rfl, by decide,
    MsgSent_stays_zero Transport.healthy goJson 1 (ConfFile.parsed testConfig) testServer
      [helloTwo] false rfl⟩

theorem closesFrom_succ (i n : Nat) :
    closesFrom i (n + 1) = Event.close i :: closesFrom (i + 1) n := by
  simp only [closesFrom, List.range_succ_eq_map, List.map_cons, List.map_map, Nat.add_zero]
  congr 1
  apply List.map_congr_left
  intro t _
  simp only [Function.comp_apply]
  congr 1
  omega

/-- The close loop on a table that holds an open socket at every index it
visits: one close on each of them, in order, and nothing else. -/
theorem closeLoop_all_closed :
    ∀ (n i : Nat) (r : Run), r.status = Status.running →
      (∀ t, t < n → ∃ s, r.sc.Sockets[i + t]? = some (some s)) →
      closeLoop n i r = { r with trace := r.trace ++ closesFrom i n } := by
  intro n
  induction n with
  | zero => intro i r _ _; simp [closeLoop, closesFrom]
  | succ n ih =>
    intro i r hrun hsock
    obtain ⟨sc, tr, st⟩ := r
    simp only at hrun hsock
    subst hrun
    obtain ⟨s, hs⟩ := hsock 0 (by omega)
    simp only [Nat.add_zero] at hs
    have hstep : closeOn ⟨sc, tr, Status.running⟩ i = ⟨sc, tr ++ [Event.close i], Status.running⟩ := by
      simp only [closeOn, hs]
    have hnext := ih (i + 1) ⟨sc, tr ++ [Event.close i], Status.running⟩ rfl
      (fun t ht => by
        obtain ⟨s1, hs1⟩ := hsock (t + 1) (by omega)
        exact ⟨s1, by rw [← hs1]; congr 1; omega⟩)
    simp only [closeLoop, hstep, hnext]
    rw [closesFrom_succ]
    simp

theorem sendOn_trace (T : Transport) (r : Run) (j : Int) (frame : String) (onErr : Panic) :
    ∃ l, (∀ e ∈ l, e.isSend = true) ∧ (sendOn T r j frame onErr).trace = r.trace ++ l := by
  unfold sendOn
  split
  · exact ⟨[], by simp, by simp⟩
  · split
    · split
      · exact ⟨[Event.send j.toNat frame], by simp [Event.isSend], rfl⟩
      · exact ⟨[Event.send j.toNat frame], by simp [Event.isSend], rfl⟩
    · exact ⟨[], by simp, by simp⟩

theorem broadcastLoop_trace (T : Transport) (J : Json) (x : Envelope) :
    ∀ (n i : Nat) (r : Run),
      ∃ l, (∀ e ∈ l, e.isSend = true) ∧ (broadcastLoop T J x n i r).trace = r.trace ++ l := by
  intro n
  induction n with
  | zero => intro i r; exact ⟨[], by simp, by simp [broadcastLoop]⟩
  | succ n ih =>
    intro i r
    obtain ⟨l1, hl1, h1⟩ := sendOn_trace T r (i : Int) (J.Marshal x).1
      (Panic.couldNotSend r.sc.Mypid (r.sc.Mypeers.getD i 0))
    simp only [broadcastLoop]
    split
    · obtain ⟨l2, hl2, h2⟩ := ih (i + 1) (sendOn T r (i : Int) (J.Marshal x).1
        (Panic.couldNotSend r.sc.Mypid (r.sc.Mypeers.getD i 0)))
      refine ⟨l1 ++ l2, ?_, ?_⟩
      · intro e he
        rcases List.mem_append.mp he with h | h
        · exact hl1 e h
        · exact hl2 e h
      · rw [h2, h1, List.append_assoc]
    · exact ⟨l1, hl1, h1⟩

theorem handle_trace (T : Transport) (J : Json) (r : Run) (x : Envelope) :
    ∃ l, (∀ e ∈ l, e.isSend = true) ∧ (handle T J r x).trace = r.trace ++ l := by
  unfold handle
  split
  · exact broadcastLoop_trace T J x _ 0 r
  · exact sendOn_trace T r _ _ _

theorem closeLoop_trace :
    ∀ (n i : Nat) (r : Run),
      ∃ l, (∀ e ∈ l, e.isClose = true) ∧ (closeLoop n i r).trace = r.trace ++ l := by
  intro n
  induction n with
  | zero => intro i r; exact ⟨[], by simp, by simp [closeLoop]⟩
  | succ n ih =>
    intro i r
    have h1 : ∃ l, (∀ e ∈ l, e.isClose = true) ∧ (closeOn r i).trace = r.trace ++ l := by
      unfold closeOn
      split
      · exact ⟨[], by simp, by simp⟩
      · exact ⟨[], by simp, by simp⟩
      · exact ⟨[Event.close i], by simp [Event.isClose], rfl⟩
    obtain ⟨l1, hl1, h1⟩ := h1
    simp only [closeLoop]
    split
    · obtain ⟨l2, hl2, h2⟩ := ih (i + 1) (closeOn r i)
      refine ⟨l1 ++ l2, ?_, ?_⟩
      · intro e he
        rcases List.mem_append.mp he with h | h
        · exact hl1 e h
        · exact hl2 e h
      · rw [h2, h1, List.append_assoc]
    · exact ⟨l1, hl1, h1⟩

theorem shutdown_trace (r : Run) :
    ∃ l, (∀ e ∈ l, e.isClose = true) ∧ (shutdown r).trace = r.trace ++ l := by
  obtain ⟨l, hl, h⟩ := closeLoop_trace r.sc.Mypeers.length 0 r
  refine ⟨l, hl, ?_⟩
  simp only [shutdown]
  split <;> simpa using h

/-- The trace of a dispatcher grows by sends, and after them by closes. -/
theorem CheckOutput_trace (T : Transport) (J : Json) :
    ∀ (xs : List Envelope) (closed : Bool) (r : Run),
      ∃ s c, (∀ e ∈ s, e.isSend = true) ∧ (∀ e ∈ c, e.isClose = true) ∧
        (CheckOutput T J xs closed r).trace = r.trace ++ (s ++ c) := by
  intro xs
  induction xs with
  | nil =>
    intro closed r
    cases closed with
    | false => exact ⟨[], [], by simp, by simp, by simp [CheckOutput]⟩
    | true =>
      obtain ⟨l, hl, h⟩ := shutdown_trace r
      exact ⟨[], l, by simp, hl, by simpa [CheckOutput] using h⟩
  | cons x xs ih =>
    intro closed r
    obtain ⟨l1, hl1, h1⟩ := handle_trace T J r x
    simp only [CheckOutput]
    split
    · obtain ⟨s, c, hs, hc, h2⟩ := ih closed (handle T J r x)
      refine ⟨l1 ++ s, c, ?_, hc, ?_⟩
      · intro e he
        rcases List.mem_append.mp he with h | h
        · exact hl1 e h
        · exact hs e h
      · rw [h2, h1]
        simp
    · exact ⟨l1, [], hl1, by simp, by simpa using h1⟩

theorem length_le_filter_ne_of_nodup (pid : Int) :
    ∀ l : List ServerConfig, (l.map (fun e => e.Mypid)).Nodup →
      l.length ≤ (l.filter (fun e => decide (e.Mypid ≠ pid))).length + 1 := by
  intro l hnd
  by_cases hmem : pid ∈ l.map (fun e => e.Mypid)
  · have := length_filter_ne_of_nodup pid l hnd hmem
    omega
  · have hall : l.filter (fun e => decide (e.Mypid ≠ pid)) = l := by
      rw [List.filter_eq_self]
      intro a ha
      have : a.Mypid ≠ pid := by
        intro hap
        exact hmem (hap ▸ List.mem_map_of_mem _ ha)
      simpa using this
    rw [hall]
    omega

/-- A node that `New` built from a configuration with pairwise distinct pids
has a full table: an open socket for every index of the peer list. -/
theorem New_tableOk_of_nodup (T : Transport) (pid : Int) (j : jsonobject) (sc : ServerConfig)
    (hnodup : (j.Object.Servers.map (fun e => e.Mypid)).Nodup)
    (hN : New T pid (ConfFile.parsed j) = Except.ok sc) : TableOk sc := by
  obtain ⟨hT, hlen, hF, -, -, -, hpeers, hsockets⟩ := New_ok_inv T pid j sc hN
  have hsub : ((j.Object.Servers.take j.Object.Total.toNat).map (fun e => e.Mypid)).Nodup :=
    hnodup.sublist ((List.take_sublist _ _).map _)
  have hge := length_le_filter_ne_of_nodup pid _ hsub
  have hV : visitedPeers pid j.Object.Servers 0 j.Object.Total.toNat
      = (j.Object.Servers.take j.Object.Total.toNat).filter
          (fun e => decide (e.Mypid ≠ pid)) := by
    simp only [visitedPeers, List.drop_zero]
  rw [hV] at hF hpeers hsockets
  rw [List.length_take] at hge
  have hz : j.Object.Total.toNat - 1
      - ((j.Object.Servers.take j.Object.Total.toNat).filter
          (fun e => decide (e.Mypid ≠ pid))).length = 0 := by omega
  rw [hz] at hpeers hsockets
  simp only [List.replicate_zero, List.append_nil] at hpeers hsockets
  exact tableOk_of_map sc _ hpeers hsockets

/-- C8. When `CheckOutput` finds the outbox closed, with a table that holds
an open socket at every index of the peer list, it closes the connections
`0, ..., len(peers)-1`, each once and in this order, makes no send and
returns. Every node that `New` built from a configuration with pairwise
distinct pids has such a table. In every run of a dispatcher, no send comes
after a close. -/
theorem CheckOutput_closed_outbox (T : Transport) (J : Json) :
    (∀ r : Run, r.status = Status.running → TableOk r.sc →
      CheckOutput T J [] true r =
        { r with
          trace := r.trace ++ closesFrom 0 r.sc.Mypeers.length
          status := Status.returned }) ∧
    (∀ (pid : Int) (j : jsonobject) (sc : ServerConfig),
      (j.Object.Servers.map (fun e => e.Mypid)).Nodup →
      New T pid (ConfFile.parsed j) = Except.ok sc → TableOk sc) ∧
    (∀ (sc : ServerConfig) (xs : List Envelope) (closed : Bool) (a b i : Nat),
      a < b → (CheckOutput T J xs closed (Run.start sc)).trace[a]? = some (Event.close i) →
      ∀ (k : Nat) (frame : String),
        (CheckOutput T J xs closed (Run.start sc)).trace[b]? ≠ some (Event.send k frame)) := by
  refine ⟨?_, ?_, ?_⟩
  · intro r hrun htable
    have h := closeLoop_all_closed r.sc.Mypeers.length 0 r hrun
      (fun t ht => by simpa using htable.getElem? ht)
    simp only [CheckOutput, ↓reduceIte, shutdown, h, hrun]
  · intro pid j sc hnodup hN
    exact New_tableOk_of_nodup T pid j sc hnodup hN
  · intro sc xs closed a b i hab ha k frame hb
    obtain ⟨s, c, hs, hc, h⟩ := CheckOutput_trace T J xs closed (Run.start sc)
    have h0 : (Run.start sc).trace = [] := rfl
    rw [h0, List.nil_append] at h
    rw [h] at ha hb
    have hsa : s.length ≤ a := by
      by_contra hlt
      rw [List.getElem?_append_left (by omega)] at ha
      have := hs _ (List.getElem?_mem ha)
      simp [Event.isSend] at this
    rw [List.getElem?_append_right (by omega)] at hb
    have := hc _ (List.getElem?_mem hb)
    simp [Event.isClose] at this

theorem CheckOutput_closed_outbox_witness :
    ((Run.start testServer).status = Status.running ∧ TableOk (Run.start testServer).sc) ∧
    CheckOutput Transport.healthy goJson [] true (Run.start testServer) =
      { sc := testServer
        trace := [Event.close 0, Event.close 1, Event.close 2, Event.close 3]
        status := Status.returned } ∧
    ((testConfig.Object.Servers.map (fun e => e.Mypid)).Nodup ∧
      New Transport.healthy 1 (ConfFile.parsed testConfig) = Except.ok testServer) ∧
    TableOk testServer ∧
    ((0 : Nat) < 1 ∧
      (CheckOutput Transport.healthy goJson [helloTwo] true (Run.start testServer)).trace[1]?
        = some (Event.close 0)) ∧
    (CheckOutput Transport.healthy goJson [helloTwo] true (Run.start testServer)).trace[2]?
      ≠ some (Event.send 0 helloTwoFrame) :=
  ⟨⟨by decide, by decide⟩,
    (CheckOutput_closed_outbox Transport.healthy goJson).1 (Run.start testServer)
      (by decide) (by decide),
    ⟨by decide, rfl⟩,
    (CheckOutput_closed_outbox Transport.healthy goJson).2.1 1 testConfig testServer
      (by decide) rfl,
    ⟨by decide, by decide⟩,
    (CheckOutput_closed_outbox Transport.healthy goJson).2.2 testServer [helloTwo] true 1 2 0
      (by decide) (by decide) 0 helloTwoFrame⟩

/-! ## Theorems: the listener -/

theorem listenLoop_frames (J : Json) :
    ∀ (ms : List String) (rs : List RecvResult) (r : ListenRun),
      listenLoop J (ms.map RecvResult.frame ++ rs) r =
        listenLoop J rs
          { r with
            sc := { r.sc with N_msgRcvd := r.sc.N_msgRcvd + ms.length }
            inbox := r.inbox
              ++ ms.map (fun m => InboxEvent.push (J.Unmarshal m Envelope.zero).1) } := by
  intro ms
  induction ms with
  | nil => intro rs r; simp
  | cons m ms ih =>
    intro rs r
    obtain ⟨sc, inbox, st⟩ := r
    have hstep : listenLoop J ((m :: ms).map RecvResult.frame ++ rs) ⟨sc, inbox, st⟩ =
        listenLoop J (ms.map RecvResult.frame ++ rs)
          ⟨{ sc with N_msgRcvd := sc.N_msgRcvd + 1 },
            inbox ++ [InboxEvent.push (J.Unmarshal m Envelope.zero).1], st⟩ := rfl
    rw [hstep, ih]
    congr 1
    simp only [List.length_cons, Nat.cast_add, Nat.cast_one, List.append_assoc,
      List.singleton_append, ListenRun.mk.injEq, ServerConfig.mk.injEq, true_and, and_true,
      List.map_cons]
    omega

theorem listenLoop_inbox_mono (J : Json) :
    ∀ (rs : List RecvResult) (r : ListenRun) (ev : InboxEvent),
      ev ∈ r.inbox → ev ∈ (listenLoop J rs r).inbox := by
  intro rs
  induction rs with
  | nil => intro r ev h; exact h
  | cons x rs ih =>
    intro r ev h
    cases x with
    | err => simp [listenLoop, h]
    | frame msg =>
      simp only [listenLoop]
      apply ih
      simp [h]

/-- What `Listen` does on frames `ms` followed by a failed receive, and on
frames `ms` alone. -/
theorem Listen_on_frames (J : Json) (sc : ServerConfig) (ms : List String) :
    (∀ rest : List RecvResult,
      Listen J sc (ListenSocket.opened (ms.map RecvResult.frame ++ RecvResult.err :: rest)) =
        { sc := { sc with N_msgRcvd := sc.N_msgRcvd + ms.length }
          inbox := ms.map (fun m => InboxEvent.push (J.Unmarshal m Envelope.zero).1)
            ++ [InboxEvent.close]
          status := Status.returned }) ∧
    Listen J sc (ListenSocket.opened (ms.map RecvResult.frame)) =
      { sc := { sc with N_msgRcvd := sc.N_msgRcvd + ms.length }
        inbox := ms.map (fun m => InboxEvent.push (J.Unmarshal m Envelope.zero).1)
        status := Status.running } := by
  constructor
  · intro rest
    have h := listenLoop_frames J ms (RecvResult.err :: rest) ⟨sc, [], Status.running⟩
    simp only [List.nil_append] at h
    simp only [Listen, ListenRun.start, h, listenLoop, List.nil_append]
  · have h := listenLoop_frames J ms [] ⟨sc, [], Status.running⟩
    simp only [List.append_nil, List.nil_append] at h
    simp only [Listen, ListenRun.start, h, listenLoop]

/-- A sequence of receive results is a run of frames followed by a failed
receive and whatever comes after it, or a run of frames only. -/
theorem recvResults_split :
    ∀ rs : List RecvResult,
      (∃ (ms : List String) (rest : List RecvResult),
        rs = ms.map RecvResult.frame ++ RecvResult.err :: rest) ∨
      (∃ ms : List String, rs = ms.map RecvResult.frame) := by
  intro rs
  induction rs with
  | nil => exact Or.inr ⟨[], rfl⟩
  | cons x rs ih =>
    cases x with
    | err => exact Or.inl ⟨[], rs, rfl⟩
    | frame m =>
      rcases ih with ⟨ms, rest, h⟩ | ⟨ms, h⟩
      · exact Or.inl ⟨m :: ms, rest, by rw [h]; rfl⟩
      · exact Or.inr ⟨m :: ms, by rw [h]; rfl⟩

/-- C10. For every sequence `rs` of receive results, one of two cases holds.
Either `rs` is a run of frames `ms` followed by a first failed receive: then
`Listen` pushes one Envelope for each frame of `ms`, in the order of
arrival, then closes the inbox and returns, and uses no result after the
failed one. Or no receive of `rs` has failed: then `Listen` has pushed one
Envelope for each frame, has not closed the inbox, and is still running. -/
theorem Listen_pushes_until_failed_receive (J : Json) (sc : ServerConfig)
    (rs : List RecvResult) :
    (∃ (ms : List String) (rest : List RecvResult),
      rs = ms.map RecvResult.frame ++ RecvResult.err :: rest ∧
      Listen J sc (ListenSocket.opened rs) =
        { sc := { sc with N_msgRcvd := sc.N_msgRcvd + ms.length }
          inbox := ms.map (fun m => InboxEvent.push (J.Unmarshal m Envelope.zero).1)
            ++ [InboxEvent.close]
          status := Status.returned }) ∨
    (∃ ms : List String, rs = ms.map RecvResult.frame ∧
      Listen J sc (ListenSocket.opened rs) =
        { sc := { sc with N_msgRcvd := sc.N_msgRcvd + ms.length }
          inbox := ms.map (fun m => InboxEvent.push (J.Unmarshal m Envelope.zero).1)
          status := Status.running }) := by
  rcases recvResults_split rs with ⟨ms, rest, h⟩ | ⟨ms, h⟩
  · exact Or.inl ⟨ms, rest, h, by rw [h]; exact (Listen_on_frames J sc ms).1 rest⟩
  · exact Or.inr ⟨ms, h, by rw [h]; exact (Listen_on_frames J sc ms).2⟩

/-- C5, as the code has it. `Listen` drops the error of `json.Unmarshal`: for
every received frame, whether the decoder reports an error (`err`) or not, it
pushes one Envelope onto the inbox, the one that holds what the decoder left
in a new Envelope (`e`), and goes on with the next receive. -/
theorem Listen_pushes_whatever_was_decoded (J : Json) (sc : ServerConfig) (ms : List String)
    (msg : String) (rest : List RecvResult) (e : Envelope) (err : Bool)
    (hdec : J.Unmarshal msg Envelope.zero = (e, err)) :
    Listen J sc (ListenSocket.opened (ms.map RecvResult.frame ++ RecvResult.frame msg :: rest)) =
      listenLoop J rest
        { sc := { sc with N_msgRcvd := sc.N_msgRcvd + ms.length + 1 }
          inbox := ms.map (fun m => InboxEvent.push (J.Unmarshal m Envelope.zero).1)
            ++ [InboxEvent.push e]
          status := Status.running } ∧
    InboxEvent.push e ∈
      (Listen J sc
        (ListenSocket.opened (ms.map RecvResult.frame ++ RecvResult.frame msg :: rest))).inbox := by
  have he : (J.Unmarshal msg Envelope.zero).1 = e := by rw [hdec]
  have h := listenLoop_frames J (ms ++ [msg]) rest ⟨sc, [], Status.running⟩
  simp only [List.map_append, List.map_cons, List.map_nil, List.append_assoc,
    List.singleton_append, List.nil_append, List.length_append, List.length_singleton,
    Nat.cast_add, Nat.cast_one, he] at h
  have hL : Listen J sc
      (ListenSocket.opened (ms.map RecvResult.frame ++ RecvResult.frame msg :: rest)) =
      listenLoop J rest
        { sc := { sc with N_msgRcvd := sc.N_msgRcvd + ms.length + 1 }
          inbox := ms.map (fun m => InboxEvent.push (J.Unmarshal m Envelope.zero).1)
            ++ [InboxEvent.push e]
          status := Status.running } := by
    simp only [Listen, ListenRun.start, h]
    congr 2
    simp [add_assoc]
  refine ⟨hL, ?_⟩
  rw [hL]
  exact listenLoop_inbox_mono J rest _ _ (by simp)

theorem Listen_pushes_whatever_was_decoded_witness :
    goJson.Unmarshal "garbage" Envelope.zero = (Envelope.zero, true) ∧
    Listen goJson testServer
        (ListenSocket.opened
          (["\x7b\x7d"].map RecvResult.frame ++ RecvResult.frame "garbage" :: [RecvResult.err])) =
      listenLoop goJson [RecvResult.err]
        { sc := { testServer with N_msgRcvd := testServer.N_msgRcvd + (["\x7b\x7d"].length : Nat) + 1 }
          inbox := ["\x7b\x7d"].map
              (fun m => InboxEvent.push (goJson.Unmarshal m Envelope.zero).1)
            ++ [InboxEvent.push Envelope.zero]
          status := Status.running } ∧
    InboxEvent.push Envelope.zero ∈
      (Listen goJson testServer
        (ListenSocket.opened
          (["\x7b\x7d"].map RecvResult.frame ++ RecvResult.frame "garbage"
            :: [RecvResult.err]))).inbox :=
  ⟨by decide,
    Listen_pushes_whatever_was_decoded goJson testServer ["\x7b\x7d"] "garbage" [RecvResult.err]
      Envelope.zero true (by decide)⟩

/-- C5 fails as stated. The frame `garbage` is no JSON text: the decoder
reports a syntax error and leaves the new Envelope as it was. `Listen` pushes
that zero-valued Envelope onto the inbox. -/
theorem Listen_forwards_zero_envelope :
    unmarshalEnvelope "garbage".data Envelope.zero = some (Envelope.zero, true) ∧
    Listen goJson testServer (ListenSocket.opened [RecvResult.frame "garbage", RecvResult.err]) =
      { sc := { testServer with N_msgRcvd := 1 }
        inbox := [InboxEvent.push Envelope.zero, InboxEvent.close]
        status := Status.returned } := by
  decide

/-! ## Theorems: the frame of an Envelope read back -/

theorem digitChar_spec (d : Nat) (h : d < 10) :
    (digitChar d).isDigit = true ∧ (digitChar d).toNat - 48 = d ∧ isWs (digitChar d) = false ∧
      digitChar d ≠ '-' ∧ digitChar d ≠ '"' ∧ digitChar d ≠ 'n' ∧
      (0 < d → digitChar d ≠ '0') := by
  interval_cases d <;> decide

/-- The value that `readDigits` gives to a run of digits. -/
theorem readDigits_append (rest : List Char) (hrest : ∀ c ∈ rest.head?, c.isDigit = false) :
    ∀ (cs : List Char) (acc : Nat), (∀ c ∈ cs, c.isDigit = true) →
      readDigits (cs ++ rest) acc =
        (cs.foldl (fun a c => a * 10 + (c.toNat - 48)) acc, rest) := by
  intro cs
  induction cs with
  | nil =>
    intro acc _
    cases rest with
    | nil => rfl
    | cons c rest =>
      have := hrest c (by simp)
      simp [readDigits, this]
  | cons c cs ih =>
    intro acc h
    have hc := h c (by simp)
    simp only [List.cons_append, readDigits, hc, ↓reduceIte, List.foldl_cons]
    exact ih _ (fun c' hc' => h c' (by simp [hc']))

theorem natCharsAux_spec :
    ∀ (f n : Nat), n ≤ f →
      (∀ c ∈ natCharsAux f n, c.isDigit = true) ∧
      (natCharsAux f n).foldl (fun a c => a * 10 + (c.toNat - 48)) 0 = n ∧
      ∃ c cs, natCharsAux f n = c :: cs ∧ (0 < n → c ≠ '0') := by
  intro f
  induction f with
  | zero =>
    intro n hn
    obtain rfl : n = 0 := by omega
    refine ⟨?_, ?_, ?_⟩
    · intro c hc
      simp only [natCharsAux, List.mem_singleton] at hc
      subst hc
      decide
    · decide
    · exact ⟨_, _, rfl, fun h => absurd h (by omega)⟩
  | succ f ih =>
    intro n hn
    by_cases h10 : n < 10
    · have hd := digitChar_spec n h10
      simp only [natCharsAux, h10, ↓reduceIte]
      refine ⟨?_, ?_, ?_⟩
      · intro c hc
        simp only [List.mem_singleton] at hc
        subst hc
        exact hd.1
      · simp [hd.2.1]
      · exact ⟨_, _, rfl, hd.2.2.2.2.2.2⟩
    · have hdiv : n / 10 ≤ f := by omega
      obtain ⟨h1, h2, c, cs, h3, h4⟩ := ih (n / 10) hdiv
      have hd := digitChar_spec (n % 10) (Nat.mod_lt _ (by omega))
      simp only [natCharsAux, h10, ↓reduceIte]
      refine ⟨?_, ?_, ?_⟩
      · intro c' hc'
        rcases List.mem_append.mp hc' with h | h
        · exact h1 c' h
        · simp only [List.mem_singleton] at h
          subst h
          exact hd.1
      · rw [List.foldl_append, h2]
        simp only [List.foldl_cons, List.foldl_nil, hd.2.1]
        omega
      · refine ⟨c, cs ++ [digitChar (n % 10)], by rw [h3]; rfl, fun _ => h4 (by omega)⟩

theorem readNat_natChars (n : Nat) (rest : List Char)
    (hrest : ∀ c ∈ rest.head?, c.isDigit = false) :
    readNat (natChars n ++ rest) = some (n, rest) := by
  obtain ⟨h1, h2, c, cs, h3, h4⟩ := natCharsAux_spec n n (le_refl n)
  have hread := readDigits_append rest hrest (natChars n) 0 h1
  have hc : c.isDigit = true := h1 c (by rw [h3]; simp)
  rcases Nat.eq_zero_or_pos n with h0 | hpos
  · subst h0
    have : natChars 0 = ['0'] := by decide
    rw [this]
    simp [readNat]
  · unfold natChars at hread ⊢
    rw [h3] at hread ⊢
    simp only [List.cons_append, readNat, h4 hpos, ↓reduceIte, hc]
    simp only [List.cons_append] at hread
    rw [hread, ← h3, h2]

theorem isDigit_facts (c : Char) (h : c.isDigit = true) :
    isWs c = false ∧ c ≠ '-' ∧ c ≠ '"' ∧ c ≠ 'n' := by
  refine ⟨?_, ?_, ?_, ?_⟩
  · cases hw : isWs c with
    | false => rfl
    | true =>
      simp only [isWs, Bool.or_eq_true, decide_eq_true_eq] at hw
      rcases hw with ((h1 | h1) | h1) | h1 <;> (rw [h1] at h; exact absurd h (by decide))
  · intro h1; rw [h1] at h; exact absurd h (by decide)
  · intro h1; rw [h1] at h; exact absurd h (by decide)
  · intro h1; rw [h1] at h; exact absurd h (by decide)

theorem intChars_head (n : Int) :
    ∃ c cs, intChars n = c :: cs ∧ isWs c = false ∧ c ≠ '"' ∧ c ≠ 'n' := by
  unfold intChars
  split
  · exact ⟨'-', _, rfl, by decide, by decide, by decide⟩
  · obtain ⟨h1, -, c, cs, h3, -⟩ := natCharsAux_spec n.natAbs n.natAbs (le_refl _)
    have hc : c.isDigit = true := h1 c (by rw [h3]; simp)
    have hf := isDigit_facts c hc
    exact ⟨c, cs, h3, hf.1, hf.2.2.1, hf.2.2.2⟩

theorem readInt_intChars (n : Int) (rest : List Char)
    (hrest : ∀ c ∈ rest.head?, c.isDigit = false) :
    readInt (intChars n ++ rest) = some (n, rest) := by
  unfold intChars
  split
  · rename_i hneg
    simp only [List.cons_append, readInt, ↓reduceIte, readNat_natChars _ _ hrest]
    congr 2
    omega
  · rename_i hpos
    obtain ⟨h1, -, c, cs, h3, -⟩ := natCharsAux_spec n.natAbs n.natAbs (le_refl _)
    have hread := readNat_natChars n.natAbs rest hrest
    have hc : c.isDigit = true := h1 c (by rw [h3]; simp)
    have hne : c ≠ '-' := (isDigit_facts c hc).2.1
    unfold natChars at hread ⊢
    rw [h3] at hread ⊢
    simp only [List.cons_append, readInt, hne, ↓reduceIte]
    simp only [List.cons_append] at hread
    rw [hread]
    simp only [Option.some.injEq, Prod.mk.injEq, and_true]
    exact Int.natAbs_of_nonneg (by omega)

theorem readString_plain (rest : List Char) :
    ∀ s : List Char, (∀ c ∈ s, isPlain c = true) →
      readString (s ++ '"' :: rest) = some (s, rest) := by
  intro s
  induction s with
  | nil => intro _; simp [readString]
  | cons c s ih =>
    intro h
    have hc := h c (by simp)
    have hne : c ≠ '"' := by
      intro h1
      rw [h1] at hc
      exact absurd hc (by decide)
    have ih1 := ih (fun c' hc' => h c' (by simp [hc']))
    show readString (c :: (s ++ '"' :: rest)) = some (c :: s, rest)
    simp only [readString, hne, ↓reduceIte, hc, ih1]

theorem b64Char_isCopied (n : Nat) : isCopied (b64Char n) = true := by
  by_cases h : n < 64
  · interval_cases n <;> decide
  · have : b64Char n = 'A' := by
      unfold b64Char
      rw [List.getD_eq_getElem?_getD, List.getElem?_eq_none (by
        have : b64Alphabet.length = 64 := by decide
        omega)]
      rfl
    rw [this]
    decide

theorem base64_isCopied : ∀ b : List (Fin 256), ∀ c ∈ base64 b, isCopied c = true := by
  intro b
  induction b using base64.induct with
  | case1 => intro c hc; simp [base64] at hc
  | case2 a =>
    intro c hc
    simp only [base64, List.mem_cons, List.mem_singleton, List.not_mem_nil, or_false] at hc
    rcases hc with h | h | h | h <;> subst h <;> first | exact b64Char_isCopied _ | decide
  | case3 a b =>
    intro c hc
    simp only [base64, List.mem_cons, List.mem_singleton, List.not_mem_nil, or_false] at hc
    rcases hc with h | h | h | h <;> subst h <;> first | exact b64Char_isCopied _ | decide
  | case4 a b c rest ih =>
    intro c' hc
    simp only [base64, List.mem_cons] at hc
    rcases hc with h | h | h | h | h
    · subst h; exact b64Char_isCopied _
    · subst h; exact b64Char_isCopied _
    · subst h; exact b64Char_isCopied _
    · subst h; exact b64Char_isCopied _
    · exact ih c' h

theorem flatMap_escapeChar_copied :
    ∀ s : List Char, (∀ c ∈ s, isCopied c = true) → s.flatMap escapeChar = s := by
  intro s
  induction s with
  | nil => intro _; rfl
  | cons c s ih =>
    intro h
    have hc := h c (by simp)
    simp only [isCopied, Bool.and_eq_true, decide_eq_true_eq] at hc
    rw [List.flatMap_cons, hc.1, ih (fun c' hc' => h c' (by simp [hc']))]
    rfl

/-- A `[]byte` and the string of its base64 text are written the same way. -/
theorem marshalPayload_bytes (b : List (Fin 256)) :
    marshalPayload (Payload.str (base64 b)) = marshalPayload (Payload.bytes b) := by
  simp only [marshalPayload, quoteString,
    flatMap_escapeChar_copied _ (base64_isCopied b)]

theorem skipWs_cons (c : Char) (cs : List Char) (h : isWs c = false) :
    skipWs (c :: cs) = c :: cs := by
  simp [skipWs, h]

theorem readValue_int (n : Int) (rest : List Char)
    (hrest : ∀ c ∈ rest.head?, c.isDigit = false) :
    skipWs (intChars n ++ rest) = intChars n ++ rest ∧
    readValue (intChars n ++ rest) = some (JValue.int n, rest) := by
  have hread := readInt_intChars n rest hrest
  obtain ⟨c, cs, h1, h2, h3, h4⟩ := intChars_head n
  rw [h1] at hread ⊢
  refine ⟨skipWs_cons _ _ h2, ?_⟩
  show readValue (c :: (cs ++ rest)) = _
  simp only [readValue, h3, h4, ↓reduceIte]
  rw [show c :: (cs ++ rest) = c :: cs ++ rest from rfl, hread]

theorem readValue_str (s rest : List Char) (hs : ∀ c ∈ s, isPlain c = true) :
    skipWs ('"' :: (s ++ '"' :: rest)) = '"' :: (s ++ '"' :: rest) ∧
    readValue ('"' :: (s ++ '"' :: rest)) = some (JValue.str s, rest) := by
  refine ⟨skipWs_cons _ _ (by decide), ?_⟩
  simp only [readValue, ↓reduceIte, readString_plain rest s hs]

theorem readValue_null (rest : List Char) :
    skipWs ('n' :: 'u' :: 'l' :: 'l' :: rest) = 'n' :: 'u' :: 'l' :: 'l' :: rest ∧
    readValue ('n' :: 'u' :: 'l' :: 'l' :: rest) = some (JValue.null, rest) := by
  refine ⟨skipWs_cons _ _ (by decide), ?_⟩
  simp [readValue]

/-- One member `"key":value` of an object, followed by the character `d`. -/
theorem readMembers_member (f : Nat) (key V cs5 : List Char) (d : Char) (v : JValue)
    (e e1 : Envelope) (hkey : ∀ c ∈ key, isPlain c = true)
    (hV : skipWs (V ++ d :: cs5) = V ++ d :: cs5 ∧
      readValue (V ++ d :: cs5) = some (v, d :: cs5))
    (hd : isWs d = false) (hstore : storeMember e key v = some e1) :
    readMembers (f + 1) ('"' :: (key ++ '"' :: ':' :: (V ++ d :: cs5))) e =
      if d = ',' then readMembers f cs5 e1
      else if d = '\x7d' then (if skipWs cs5 = [] then some e1 else none)
      else none := by
  simp only [readMembers, skipWs_cons '"' _ (by decide), ↓reduceIte,
    readString_plain _ key hkey, skipWs_cons ':' _ (by decide), hV.1, hV.2, hstore,
    skipWs_cons d _ hd]

theorem marshalEnvelope_eq (e : Envelope) :
    marshalEnvelope e =
      '\x7b' :: '"' :: ("SendTo".toList ++ '"' :: ':' :: (intChars e.SendTo ++
        ',' :: '"' :: ("SendBy".toList ++ '"' :: ':' :: (intChars e.SendBy ++
        ',' :: '"' :: ("MsgId".toList ++ '"' :: ':' :: (intChars e.MsgId ++
        ',' :: '"' :: ("Msg".toList ++ '"' :: ':' :: (marshalPayload e.Msg ++
        '\x7d' :: []))))))))  := by
  have h1 : "\x7b\"SendTo\":".toList = '\x7b' :: '"' :: ("SendTo".toList ++ ['"', ':']) := by
    decide
  have h2 : ",\"SendBy\":".toList = ',' :: '"' :: ("SendBy".toList ++ ['"', ':']) := by decide
  have h3 : ",\"MsgId\":".toList = ',' :: '"' :: ("MsgId".toList ++ ['"', ':']) := by decide
  have h4 : ",\"Msg\":".toList = ',' :: '"' :: ("Msg".toList ++ ['"', ':']) := by decide
  have h5 : "\x7d".toList = ['\x7d'] := by decide
  simp only [marshalEnvelope, h1, h2, h3, h4, h5, List.cons_append, List.append_assoc,
    List.nil_append]

/-- The frame of an Envelope whose payload is written as `P`, when `P` reads
back as the value `v` and `v` is stored into `Msg` as `m`: the decoder reads
the four members back without error. -/
theorem unmarshal_marshalEnvelope (e : Envelope) (v : JValue) (m : Payload)
    (hTo : inInt64 e.SendTo = true) (hBy : inInt64 e.SendBy = true)
    (hId : inInt64 e.MsgId = true)
    (hV : skipWs (marshalPayload e.Msg ++ '\x7d' :: []) = marshalPayload e.Msg ++ '\x7d' :: [] ∧
      readValue (marshalPayload e.Msg ++ '\x7d' :: []) = some (v, '\x7d' :: []))
    (hstore : ∀ e0 : Envelope, storeMember e0 "Msg".toList v = some { e0 with Msg := m }) :
    unmarshalEnvelope (marshalEnvelope e) Envelope.zero = some ({ e with Msg := m }, false) := by
  have hlen : ∃ f, (marshalEnvelope e).length = f + 4 := by
    refine ⟨(marshalEnvelope e).length - 4, ?_⟩
    have : 4 ≤ (marshalEnvelope e).length := by
      rw [marshalEnvelope_eq]
      simp only [List.length_cons, List.length_append]
      omega
    omega
  obtain ⟨f, hf⟩ := hlen
  have hcomma : ∀ (rest : List Char) (c : Char), c ∈ (',' :: rest).head? → c.isDigit = false := by
    intro rest c hc
    simp only [List.head?_cons, Option.mem_def, Option.some.injEq] at hc
    subst hc
    decide
  have hplain1 : ∀ c ∈ "SendTo".toList, isPlain c = true := by decide
  have hplain2 : ∀ c ∈ "SendBy".toList, isPlain c = true := by decide
  have hplain3 : ∀ c ∈ "MsgId".toList, isPlain c = true := by decide
  have hplain4 : ∀ c ∈ "Msg".toList, isPlain c = true := by decide
  have hs1 : storeMember Envelope.zero "SendTo".toList (JValue.int e.SendTo)
      = some { Envelope.zero with SendTo := e.SendTo } := by
    simp [storeMember, hTo]
  have hs2 : storeMember { Envelope.zero with SendTo := e.SendTo } "SendBy".toList
      (JValue.int e.SendBy)
      = some { Envelope.zero with SendTo := e.SendTo, SendBy := e.SendBy } := by
    have : ¬ ("SendBy".toList = "SendTo".toList) := by decide
    simp [storeMember, hBy, this]
  have hs3 : storeMember { Envelope.zero with SendTo := e.SendTo, SendBy := e.SendBy }
      "MsgId".toList (JValue.int e.MsgId)
      = some { Envelope.zero with SendTo := e.SendTo, SendBy := e.SendBy, MsgId := e.MsgId } := by
    have h1 : ¬ ("MsgId".toList = "SendTo".toList) := by decide
    have h2 : ¬ ("MsgId".toList = "SendBy".toList) := by decide
    simp [storeMember, hId, h1, h2]
  have hfinal : ({ ({ Envelope.zero with
      SendTo := e.SendTo, SendBy := e.SendBy, MsgId := e.MsgId } : Envelope) with Msg := m }
      : Envelope) = { e with Msg := m } := rfl
  unfold unmarshalEnvelope
  rw [hf, marshalEnvelope_eq]
  simp only [skipWs_cons '\x7b' _ (by decide), skipWs_cons '"' _ (by decide)]
  simp only [show (!startsValue '\x7b') = false by decide, Bool.false_eq_true, ↓reduceIte,
    show ¬ ('"' = '\x7d') by decide]
  rw [show f + 4 = (f + 3) + 1 from rfl,
    readMembers_member (f + 3) _ _ _ ',' _ _ _ hplain1
      (readValue_int e.SendTo _ (hcomma _)) (by decide) hs1]
  simp only [↓reduceIte]
  rw [show f + 3 = (f + 2) + 1 from rfl,
    readMembers_member (f + 2) _ _ _ ',' _ _ _ hplain2
      (readValue_int e.SendBy _ (hcomma _)) (by decide) hs2]
  simp only [↓reduceIte]
  rw [show f + 2 = (f + 1) + 1 from rfl,
    readMembers_member (f + 1) _ _ _ ',' _ _ _ hplain3
      (readValue_int e.MsgId _ (hcomma _)) (by decide) hs3]
  simp only [↓reduceIte]
  rw [readMembers_member f _ _ _ '\x7d' _ _ _ hplain4 hV (by decide) (hstore _)]
  simp only [show ¬ ('\x7d' = ',') by decide, ↓reduceIte, skipWs, hfinal]

theorem storeMember_Msg_str (e0 : Envelope) (s : List Char) :
    storeMember e0 "Msg".toList (JValue.str s) = some { e0 with Msg := Payload.str s } := by
  have h1 : ¬ ("Msg".toList = "SendTo".toList) := by decide
  have h2 : ¬ ("Msg".toList = "SendBy".toList) := by decide
  have h3 : ¬ ("Msg".toList = "MsgId".toList) := by decide
  simp [storeMember, h1, h2, h3]

theorem storeMember_Msg_null (e0 : Envelope) :
    storeMember e0 "Msg".toList JValue.null = some { e0 with Msg := Payload.nil } := by
  have h1 : ¬ ("Msg".toList = "SendTo".toList) := by decide
  have h2 : ¬ ("Msg".toList = "SendBy".toList) := by decide
  have h3 : ¬ ("Msg".toList = "MsgId".toList) := by decide
  simp [storeMember, h1, h2, h3]

/-- The frame of an Envelope with a `[]byte` payload reads back, without
error, as an Envelope that is written as the same frame. -/
theorem unmarshal_marshal_bytes (e : Envelope)
    (hMsg : e.Msg = Payload.nilBytes ∨ ∃ b, e.Msg = Payload.bytes b)
    (hTo : inInt64 e.SendTo = true) (hBy : inInt64 e.SendBy = true)
    (hId : inInt64 e.MsgId = true) :
    ∃ d : Envelope, unmarshalEnvelope (marshalEnvelope e) Envelope.zero = some (d, false) ∧
      marshalEnvelope d = marshalEnvelope e := by
  rcases hMsg with hnil | ⟨b, hb⟩
  · refine ⟨{ e with Msg := Payload.nil }, ?_, ?_⟩
    · apply unmarshal_marshalEnvelope e JValue.null Payload.nil hTo hBy hId
      · rw [hnil]
        exact readValue_null _
      · exact storeMember_Msg_null
    · simp only [marshalEnvelope, hnil, marshalPayload]
  · refine ⟨{ e with Msg := Payload.str (base64 b) }, ?_, ?_⟩
    · apply unmarshal_marshalEnvelope e (JValue.str (base64 b)) (Payload.str (base64 b))
        hTo hBy hId
      · rw [hb]
        have hplain : ∀ c ∈ base64 b, isPlain c = true := by
          intro c hc
          have := base64_isCopied b c hc
          simp only [isCopied, Bool.and_eq_true] at this
          exact this.2
        have := readValue_str (base64 b) ['\x7d'] hplain
        simpa [marshalPayload] using this
      · exact fun e0 => storeMember_Msg_str e0 _
    · simp only [marshalEnvelope, hb, marshalPayload_bytes]

/-- C9. For every Envelope whose payload is a byte slice (its integer fields
in the range of their Go types): the frame that `CheckOutput` writes for it,
`json.Marshal` of the Envelope, is decoded by `Listen`, with
`json.Unmarshal` into a new Envelope, without error, and the Envelope that
`Listen` pushes is serialized to the same bytes, so also to the same length,
as the original one. -/
theorem payload_round_trip (e : Envelope) (sc : ServerConfig)
    (hMsg : e.Msg = Payload.nilBytes ∨ ∃ b, e.Msg = Payload.bytes b)
    (hTo : inInt64 e.SendTo = true) (hBy : inInt64 e.SendBy = true)
    (hId : inInt64 e.MsgId = true) :
    unmarshalEnvelope (goJson.Marshal e).1.data Envelope.zero =
      some ((goJson.Unmarshal (goJson.Marshal e).1 Envelope.zero).1, false) ∧
    (Listen goJson sc (ListenSocket.opened [RecvResult.frame (goJson.Marshal e).1])).inbox =
      [InboxEvent.push (goJson.Unmarshal (goJson.Marshal e).1 Envelope.zero).1] ∧
    (goJson.Marshal (goJson.Unmarshal (goJson.Marshal e).1 Envelope.zero).1).1 =
      (goJson.Marshal e).1 ∧
    (goJson.Marshal (goJson.Unmarshal (goJson.Marshal e).1 Envelope.zero).1).1.length =
      (goJson.Marshal e).1.length := by
  obtain ⟨d, hd, hm⟩ := unmarshal_marshal_bytes e hMsg hTo hBy hId
  have hdata : (goJson.Marshal e).1.data = marshalEnvelope e := rfl
  have hun : (goJson.Unmarshal (goJson.Marshal e).1 Envelope.zero).1 = d := by
    show ((unmarshalEnvelope (goJson.Marshal e).1.data Envelope.zero).getD
      (Envelope.zero, true)).1 = d
    rw [hdata, hd]
    rfl
  have hmarshal : (goJson.Marshal d).1 = (goJson.Marshal e).1 := by
    show String.mk (marshalEnvelope d) = String.mk (marshalEnvelope e)
    rw [hm]
  refine ⟨?_, rfl, ?_, ?_⟩
  · rw [hun, hdata, hd]
  · rw [hun, hmarshal]
  · rw [hun, hmarshal]

theorem payload_round_trip_witness :
    ((longMessage.Msg = Payload.nilBytes ∨ ∃ b, longMessage.Msg = Payload.bytes b) ∧
      inInt64 longMessage.SendTo = true ∧ inInt64 longMessage.SendBy = true ∧
      inInt64 longMessage.MsgId = true) ∧
    (unmarshalEnvelope (goJson.Marshal longMessage).1.data Envelope.zero =
      some ((goJson.Unmarshal (goJson.Marshal longMessage).1 Envelope.zero).1, false) ∧
    (Listen goJson testServer
        (ListenSocket.opened [RecvResult.frame (goJson.Marshal longMessage).1])).inbox =
      [InboxEvent.push (goJson.Unmarshal (goJson.Marshal longMessage).1 Envelope.zero).1] ∧
    (goJson.Marshal (goJson.Unmarshal (goJson.Marshal longMessage).1 Envelope.zero).1).1 =
      (goJson.Marshal longMessage).1 ∧
    (goJson.Marshal (goJson.Unmarshal (goJson.Marshal longMessage).1 Envelope.zero).1).1.length =
      (goJson.Marshal longMessage).1.length) :=
  ⟨⟨Or.inr ⟨_, rfl⟩, by decide, by decide, by decide⟩,
    payload_round_trip longMessage testServer (Or.inr ⟨_, rfl⟩) (by decide) (by decide)
      (by decide)⟩

end Cluster
